import Mathlib

/-!
# ofever: athlete identity cache and competition store

A shallow embedding of `athletes/cache.go` and `storage/competitionService.go`.

Conventions of the embedding.

* A Go `string` is a Lean `String`, that is a sequence of Unicode scalar values; Go strings
  holding invalid UTF-8 are outside the model. On valid UTF-8 the byte-wise operations used by
  the sources (`strings.Contains`, `strings.ReplaceAll`, `regexp.Find`) agree with their
  rune-wise reading, which is the one embedded here. The slice `k[0:4]` of
  `CompetitionsForSeason` is embedded on the UTF-8 bytes of the key.
* A Go `map[string]*T` is an `AList`: a finite list of key/value entries without duplicate keys.
  Records are never mutated through their pointers in the embedded code, so a pointer is
  represented by the record it points to. A loop over a map visits the entries in the order of
  the list; a statement proved for every `AList` holds for every iteration order.
* A persisted athlete blob is represented by the outcome of `json.Unmarshal` on its bytes, and
  `init` is embedded as the sequential run in which every blob is received before the reader
  signals completion.
* Random sources (`uuid.New`, `crypto/rand`) are inputs of the functions that consume them.
* A `float64` produced by `strconv.ParseFloat` is represented by the rational number denoted by
  the parsed numeral; the Go value is that rational correctly rounded to `float64`.
* The goroutine of `Start` is embedded as a function of one loop iteration that returns the new
  store together with the trace of its effects (calls of the persist collaborator and sends on
  the done channel).
-/

/-- A Go map with string keys: entries without duplicate keys. -/
abbrev GoMap (V : Type) : Type := AList (fun _ : String => V)

/-- Sixteen random bytes, as produced by `rand.Read` or held by a `uuid.UUID`. -/
abbrev Bytes16 : Type := Fin 16 → Fin 256

/-! ## Library functions used by the sources -/

namespace unicode

/-- The predicate `unicode.IsSpace`: the Latin-1 spaces and the `White_Space` property. -/
def IsSpace (c : Char) : Bool :=
  let n := c.toNat
  (9 ≤ n && n ≤ 13) || n = 0x20 || n = 0x85 || n = 0xA0 || n = 0x1680 ||
    (0x2000 ≤ n && n ≤ 0x200A) || n = 0x2028 || n = 0x2029 || n = 0x202F || n = 0x205F ||
    n = 0x3000

/-- An entry of the case table: the runes `lo`, `lo + step`, ..., up to `hi`, are mapped to
`target`, `target + step`, ...; `step` is 1 for a block of capitals and 2 for capitals that
alternate with their small letters. -/
structure CaseRange where
  lo : Nat
  hi : Nat
  target : Nat
  step : Nat
deriving DecidableEq, Repr

/-- Whether the entry maps the code point `n`. -/
def CaseRange.applies (r : CaseRange) (n : Nat) : Bool :=
  r.lo ≤ n && n ≤ r.hi && (n - r.lo) % r.step = 0

/-- The simple lower-case mappings of the Unicode Character Database (version 14.0.0), which
is the content of the table `unicode.CaseRanges` for `unicode.LowerCase`: every rune with a
lower-case mapping other than itself lies in exactly one entry. -/
def lowerRanges : List CaseRange :=
  [CaseRange.mk 0x0041 0x005A 0x0061 1, CaseRange.mk 0x00C0 0x00D6 0x00E0 1,
    CaseRange.mk 0x00D8 0x00DE 0x00F8 1, CaseRange.mk 0x0100 0x012E 0x0101 2,
    CaseRange.mk 0x0130 0x0130 0x0069 1, CaseRange.mk 0x0132 0x0136 0x0133 2,
    CaseRange.mk 0x0139 0x0147 0x013A 2, CaseRange.mk 0x014A 0x0176 0x014B 2,
    CaseRange.mk 0x0178 0x0178 0x00FF 1, CaseRange.mk 0x0179 0x017D 0x017A 2,
    CaseRange.mk 0x0181 0x0181 0x0253 1, CaseRange.mk 0x0182 0x0184 0x0183 2,
    CaseRange.mk 0x0186 0x0186 0x0254 1, CaseRange.mk 0x0187 0x0187 0x0188 1,
    CaseRange.mk 0x0189 0x018A 0x0256 1, CaseRange.mk 0x018B 0x018B 0x018C 1,
    CaseRange.mk 0x018E 0x018E 0x01DD 1, CaseRange.mk 0x018F 0x018F 0x0259 1,
    CaseRange.mk 0x0190 0x0190 0x025B 1, CaseRange.mk 0x0191 0x0191 0x0192 1,
    CaseRange.mk 0x0193 0x0193 0x0260 1, CaseRange.mk 0x0194 0x0194 0x0263 1,
    CaseRange.mk 0x0196 0x0196 0x0269 1, CaseRange.mk 0x0197 0x0197 0x0268 1,
    CaseRange.mk 0x0198 0x0198 0x0199 1, CaseRange.mk 0x019C 0x019C 0x026F 1,
    CaseRange.mk 0x019D 0x019D 0x0272 1, CaseRange.mk 0x019F 0x019F 0x0275 1,
    CaseRange.mk 0x01A0 0x01A4 0x01A1 2, CaseRange.mk 0x01A6 0x01A6 0x0280 1,
    CaseRange.mk 0x01A7 0x01A7 0x01A8 1, CaseRange.mk 0x01A9 0x01A9 0x0283 1,
    CaseRange.mk 0x01AC 0x01AC 0x01AD 1, CaseRange.mk 0x01AE 0x01AE 0x0288 1,
    CaseRange.mk 0x01AF 0x01AF 0x01B0 1, CaseRange.mk 0x01B1 0x01B2 0x028A 1,
    CaseRange.mk 0x01B3 0x01B5 0x01B4 2, CaseRange.mk 0x01B7 0x01B7 0x0292 1,
    CaseRange.mk 0x01B8 0x01B8 0x01B9 1, CaseRange.mk 0x01BC 0x01BC 0x01BD 1,
    CaseRange.mk 0x01C4 0x01C4 0x01C6 1, CaseRange.mk 0x01C5 0x01C5 0x01C6 1,
    CaseRange.mk 0x01C7 0x01C7 0x01C9 1, CaseRange.mk 0x01C8 0x01C8 0x01C9 1,
    CaseRange.mk 0x01CA 0x01CA 0x01CC 1, CaseRange.mk 0x01CB 0x01DB 0x01CC 2,
    CaseRange.mk 0x01DE 0x01EE 0x01DF 2, CaseRange.mk 0x01F1 0x01F1 0x01F3 1,
    CaseRange.mk 0x01F2 0x01F4 0x01F3 2, CaseRange.mk 0x01F6 0x01F6 0x0195 1,
    CaseRange.mk 0x01F7 0x01F7 0x01BF 1, CaseRange.mk 0x01F8 0x021E 0x01F9 2,
    CaseRange.mk 0x0220 0x0220 0x019E 1, CaseRange.mk 0x0222 0x0232 0x0223 2,
    CaseRange.mk 0x023A 0x023A 0x2C65 1, CaseRange.mk 0x023B 0x023B 0x023C 1,
    CaseRange.mk 0x023D 0x023D 0x019A 1, CaseRange.mk 0x023E 0x023E 0x2C66 1,
    CaseRange.mk 0x0241 0x0241 0x0242 1, CaseRange.mk 0x0243 0x0243 0x0180 1,
    CaseRange.mk 0x0244 0x0244 0x0289 1, CaseRange.mk 0x0245 0x0245 0x028C 1,
    CaseRange.mk 0x0246 0x024E 0x0247 2, CaseRange.mk 0x0370 0x0372 0x0371 2,
    CaseRange.mk 0x0376 0x0376 0x0377 1, CaseRange.mk 0x037F 0x037F 0x03F3 1,
    CaseRange.mk 0x0386 0x0386 0x03AC 1, CaseRange.mk 0x0388 0x038A 0x03AD 1,
    CaseRange.mk 0x038C 0x038C 0x03CC 1, CaseRange.mk 0x038E 0x038F 0x03CD 1,
    CaseRange.mk 0x0391 0x03A1 0x03B1 1, CaseRange.mk 0x03A3 0x03AB 0x03C3 1,
    CaseRange.mk 0x03CF 0x03CF 0x03D7 1, CaseRange.mk 0x03D8 0x03EE 0x03D9 2,
    CaseRange.mk 0x03F4 0x03F4 0x03B8 1, CaseRange.mk 0x03F7 0x03F7 0x03F8 1,
    CaseRange.mk 0x03F9 0x03F9 0x03F2 1, CaseRange.mk 0x03FA 0x03FA 0x03FB 1,
    CaseRange.mk 0x03FD 0x03FF 0x037B 1, CaseRange.mk 0x0400 0x040F 0x0450 1,
    CaseRange.mk 0x0410 0x042F 0x0430 1, CaseRange.mk 0x0460 0x0480 0x0461 2,
    CaseRange.mk 0x048A 0x04BE 0x048B 2, CaseRange.mk 0x04C0 0x04C0 0x04CF 1,
    CaseRange.mk 0x04C1 0x04CD 0x04C2 2, CaseRange.mk 0x04D0 0x052E 0x04D1 2,
    CaseRange.mk 0x0531 0x0556 0x0561 1, CaseRange.mk 0x10A0 0x10C5 0x2D00 1,
    CaseRange.mk 0x10C7 0x10C7 0x2D27 1, CaseRange.mk 0x10CD 0x10CD 0x2D2D 1,
    CaseRange.mk 0x13A0 0x13EF 0xAB70 1, CaseRange.mk 0x13F0 0x13F5 0x13F8 1,
    CaseRange.mk 0x1C90 0x1CBA 0x10D0 1, CaseRange.mk 0x1CBD 0x1CBF 0x10FD 1,
    CaseRange.mk 0x1E00 0x1E94 0x1E01 2, CaseRange.mk 0x1E9E 0x1E9E 0x00DF 1,
    CaseRange.mk 0x1EA0 0x1EFE 0x1EA1 2, CaseRange.mk 0x1F08 0x1F0F 0x1F00 1,
    CaseRange.mk 0x1F18 0x1F1D 0x1F10 1, CaseRange.mk 0x1F28 0x1F2F 0x1F20 1,
    CaseRange.mk 0x1F38 0x1F3F 0x1F30 1, CaseRange.mk 0x1F48 0x1F4D 0x1F40 1,
    CaseRange.mk 0x1F59 0x1F5F 0x1F51 2, CaseRange.mk 0x1F68 0x1F6F 0x1F60 1,
    CaseRange.mk 0x1F88 0x1F8F 0x1F80 1, CaseRange.mk 0x1F98 0x1F9F 0x1F90 1,
    CaseRange.mk 0x1FA8 0x1FAF 0x1FA0 1, CaseRange.mk 0x1FB8 0x1FB9 0x1FB0 1,
    CaseRange.mk 0x1FBA 0x1FBB 0x1F70 1, CaseRange.mk 0x1FBC 0x1FBC 0x1FB3 1,
    CaseRange.mk 0x1FC8 0x1FCB 0x1F72 1, CaseRange.mk 0x1FCC 0x1FCC 0x1FC3 1,
    CaseRange.mk 0x1FD8 0x1FD9 0x1FD0 1, CaseRange.mk 0x1FDA 0x1FDB 0x1F76 1,
    CaseRange.mk 0x1FE8 0x1FE9 0x1FE0 1, CaseRange.mk 0x1FEA 0x1FEB 0x1F7A 1,
    CaseRange.mk 0x1FEC 0x1FEC 0x1FE5 1, CaseRange.mk 0x1FF8 0x1FF9 0x1F78 1,
    CaseRange.mk 0x1FFA 0x1FFB 0x1F7C 1, CaseRange.mk 0x1FFC 0x1FFC 0x1FF3 1,
    CaseRange.mk 0x2126 0x2126 0x03C9 1, CaseRange.mk 0x212A 0x212A 0x006B 1,
    CaseRange.mk 0x212B 0x212B 0x00E5 1, CaseRange.mk 0x2132 0x2132 0x214E 1,
    CaseRange.mk 0x2160 0x216F 0x2170 1, CaseRange.mk 0x2183 0x2183 0x2184 1,
    CaseRange.mk 0x24B6 0x24CF 0x24D0 1, CaseRange.mk 0x2C00 0x2C2F 0x2C30 1,
    CaseRange.mk 0x2C60 0x2C60 0x2C61 1, CaseRange.mk 0x2C62 0x2C62 0x026B 1,
    CaseRange.mk 0x2C63 0x2C63 0x1D7D 1, CaseRange.mk 0x2C64 0x2C64 0x027D 1,
    CaseRange.mk 0x2C67 0x2C6B 0x2C68 2, CaseRange.mk 0x2C6D 0x2C6D 0x0251 1,
    CaseRange.mk 0x2C6E 0x2C6E 0x0271 1, CaseRange.mk 0x2C6F 0x2C6F 0x0250 1,
    CaseRange.mk 0x2C70 0x2C70 0x0252 1, CaseRange.mk 0x2C72 0x2C72 0x2C73 1,
    CaseRange.mk 0x2C75 0x2C75 0x2C76 1, CaseRange.mk 0x2C7E 0x2C7F 0x023F 1,
    CaseRange.mk 0x2C80 0x2CE2 0x2C81 2, CaseRange.mk 0x2CEB 0x2CED 0x2CEC 2,
    CaseRange.mk 0x2CF2 0x2CF2 0x2CF3 1, CaseRange.mk 0xA640 0xA66C 0xA641 2,
    CaseRange.mk 0xA680 0xA69A 0xA681 2, CaseRange.mk 0xA722 0xA72E 0xA723 2,
    CaseRange.mk 0xA732 0xA76E 0xA733 2, CaseRange.mk 0xA779 0xA77B 0xA77A 2,
    CaseRange.mk 0xA77D 0xA77D 0x1D79 1, CaseRange.mk 0xA77E 0xA786 0xA77F 2,
    CaseRange.mk 0xA78B 0xA78B 0xA78C 1, CaseRange.mk 0xA78D 0xA78D 0x0265 1,
    CaseRange.mk 0xA790 0xA792 0xA791 2, CaseRange.mk 0xA796 0xA7A8 0xA797 2,
    CaseRange.mk 0xA7AA 0xA7AA 0x0266 1, CaseRange.mk 0xA7AB 0xA7AB 0x025C 1,
    CaseRange.mk 0xA7AC 0xA7AC 0x0261 1, CaseRange.mk 0xA7AD 0xA7AD 0x026C 1,
    CaseRange.mk 0xA7AE 0xA7AE 0x026A 1, CaseRange.mk 0xA7B0 0xA7B0 0x029E 1,
    CaseRange.mk 0xA7B1 0xA7B1 0x0287 1, CaseRange.mk 0xA7B2 0xA7B2 0x029D 1,
    CaseRange.mk 0xA7B3 0xA7B3 0xAB53 1, CaseRange.mk 0xA7B4 0xA7C2 0xA7B5 2,
    CaseRange.mk 0xA7C4 0xA7C4 0xA794 1, CaseRange.mk 0xA7C5 0xA7C5 0x0282 1,
    CaseRange.mk 0xA7C6 0xA7C6 0x1D8E 1, CaseRange.mk 0xA7C7 0xA7C9 0xA7C8 2,
    CaseRange.mk 0xA7D0 0xA7D0 0xA7D1 1, CaseRange.mk 0xA7D6 0xA7D8 0xA7D7 2,
    CaseRange.mk 0xA7F5 0xA7F5 0xA7F6 1, CaseRange.mk 0xFF21 0xFF3A 0xFF41 1,
    CaseRange.mk 0x10400 0x10427 0x10428 1, CaseRange.mk 0x104B0 0x104D3 0x104D8 1,
    CaseRange.mk 0x10570 0x1057A 0x10597 1, CaseRange.mk 0x1057C 0x1058A 0x105A3 1,
    CaseRange.mk 0x1058C 0x10592 0x105B3 1, CaseRange.mk 0x10594 0x10595 0x105BB 1,
    CaseRange.mk 0x10C80 0x10CB2 0x10CC0 1, CaseRange.mk 0x118A0 0x118BF 0x118C0 1,
    CaseRange.mk 0x16E40 0x16E5F 0x16E60 1, CaseRange.mk 0x1E900 0x1E921 0x1E922 1]

/-- The mapping `unicode.ToLower`: the ASCII capitals move up by 32, the other ASCII runes are
unchanged, and a rune above ASCII is mapped by the case table. -/
def ToLower (c : Char) : Char :=
  let n := c.toNat
  if n ≤ 0x7F then
    if 65 ≤ n && n ≤ 90 then Char.ofNat (n + 32) else c
  else
    match lowerRanges.find? (fun r => r.applies n) with
    | some r => Char.ofNat (r.target + (n - r.lo))
    | none => c

/-- No white-space code point lies between `a` and `b`. -/
def spaceFree (a b : Nat) : Bool :=
  (b < 9 || 13 < a) && (b < 0x20 || 0x20 < a) && (b < 0x85 || 0x85 < a) &&
    (b < 0xA0 || 0xA0 < a) && (b < 0x1680 || 0x1680 < a) && (b < 0x2000 || 0x200A < a) &&
    (b < 0x2028 || 0x2029 < a) && (b < 0x202F || 0x202F < a) && (b < 0x205F || 0x205F < a) &&
    (b < 0x3000 || 0x3000 < a)

/-- The entry maps a block without white space onto a block of valid code points without
white space. -/
def CaseRange.spaceFree (r : CaseRange) : Bool :=
  r.lo ≤ r.hi && unicode.spaceFree r.lo r.hi &&
    unicode.spaceFree r.target (r.target + (r.hi - r.lo)) &&
    (r.target + (r.hi - r.lo) < 0xD800 ||
      (0xDFFF < r.target && r.target + (r.hi - r.lo) < 0x110000))

end unicode

namespace strings

/-- Lower-cases every rune, as `strings.ToLower`. -/
def ToLower (s : String) : String := ⟨s.data.map unicode.ToLower⟩

/-- Removes leading and trailing white space, as `strings.TrimSpace`. -/
def TrimSpace (s : String) : String :=
  ⟨(s.data.dropWhile unicode.IsSpace).rdropWhile (fun c => unicode.IsSpace c)⟩

/-- Whether `substr` occurs in `s` starting at some position of `s` (or at its end). -/
def containsAt : List Char → List Char → Bool
  | [], substr => substr.isPrefixOf []
  | c :: cs, substr => substr.isPrefixOf (c :: cs) || containsAt cs substr

/-- Reports whether `substr` is within `s`, as `strings.Contains`. -/
def Contains (s substr : String) : Bool := containsAt s.data substr.data

/-- Left-to-right replacement of the non-overlapping occurrences of a non-empty `old`;
`skip` counts the runes of the current occurrence that remain to be dropped. -/
def replaceFrom (old new : List Char) : Nat → List Char → List Char
  | _, [] => []
  | skip + 1, _ :: cs => replaceFrom old new skip cs
  | 0, c :: cs =>
    if old.isPrefixOf (c :: cs) then new ++ replaceFrom old new (old.length - 1) cs
    else c :: replaceFrom old new 0 cs

/-- Replaces all non-overlapping instances of `old` by `new`, as `strings.ReplaceAll`; an empty
`old` matches before every rune and at the end. -/
def ReplaceAll (s old new : String) : String :=
  if old.data = [] then ⟨new.data ++ s.data.flatMap (fun c => c :: new.data)⟩
  else ⟨replaceFrom old.data new.data 0 s.data⟩

end strings

namespace fmt

/-- Two lower-case hexadecimal digits of a byte. -/
def hexByte (b : Fin 256) : List Char :=
  [Nat.digitChar (b.val / 16), Nat.digitChar (b.val % 16)]

/-- The verb `%x` applied to a byte slice: two lower-case hexadecimal digits per byte. -/
def hexBytes (bs : List (Fin 256)) : String := ⟨bs.flatMap hexByte⟩

/-- The verb `%d` applied to an integer. -/
def d (i : Int) : String := toString i

/-- The verb `%02d` applied to a non-negative integer: zero-padded to width two. -/
def d02 (n : Nat) : String := if n < 10 then "0" ++ toString n else toString n

end fmt

namespace regexp

/-- The fragment of the regular expression syntax used by the patterns of the store. -/
inductive Regex where
  | empty : Regex
  | lit (c : Char) : Regex
  | digit : Regex
  | anyNotNL : Regex
  | cat (a b : Regex) : Regex
  | alt (a b : Regex) : Regex
  | opt (a : Regex) : Regex
deriving DecidableEq, Repr

/-- The concatenation of a list of expressions. -/
def Regex.seq : List Regex → Regex
  | [] => Regex.empty
  | [r] => r
  | r :: rs => Regex.cat r (Regex.seq rs)

/-- Up to `n` greedy copies of `r`: `n` nested options. -/
def Regex.upTo (r : Regex) : Nat → Regex
  | 0 => Regex.empty
  | n + 1 => Regex.opt (Regex.cat r (Regex.upTo r n))

/-- The expression `rest` after `n` copies of `r`. -/
def Regex.times (r rest : Regex) : Nat → Regex
  | 0 => rest
  | n + 1 => Regex.cat r (Regex.times r rest n)

/-- The bounded repetition `x{lo,hi}`, greedy: `lo` copies, then up to `hi - lo` more. -/
def Regex.rep (r : Regex) (lo hi : Nat) : Regex := Regex.times r (Regex.upTo r (hi - lo)) lo

/-- Backtracking match at the head of `s`. `acc` is the text matched so far and `k` the rest of
the match; alternatives are tried in priority order (first branch of `|` first, one more
repetition before none), which is the leftmost-first rule of Go regular expressions. -/
def Regex.run {α : Type} : Regex → List Char → List Char →
    (List Char → List Char → Option α) → Option α
  | Regex.empty, acc, s, k => k acc s
  | Regex.lit c, acc, s, k =>
    match s with
    | [] => none
    | x :: xs => if x = c then k (acc ++ [x]) xs else none
  | Regex.digit, acc, s, k =>
    match s with
    | [] => none
    | x :: xs => if x.isDigit then k (acc ++ [x]) xs else none
  | Regex.anyNotNL, acc, s, k =>
    match s with
    | [] => none
    | x :: xs => if x = Char.ofNat 10 then none else k (acc ++ [x]) xs
  | Regex.cat a b, acc, s, k => Regex.run a acc s (fun acc1 s1 => Regex.run b acc1 s1 k)
  | Regex.alt a b, acc, s, k =>
    match Regex.run a acc s k with
    | some r => some r
    | none => Regex.run b acc s k
  | Regex.opt a, acc, s, k =>
    match Regex.run a acc s k with
    | some r => some r
    | none => k acc s

/-- The text matched by `r` at the head of `s`, if `r` matches there. -/
def Regex.matchAt (r : Regex) (s : List Char) : Option (List Char) :=
  Regex.run r [] s (fun acc _ => some acc)

/-- The leftmost match of `r` in `b`, as `(*Regexp).Find`; `none` stands for the nil slice
returned when there is no match. -/
def Regex.Find (r : Regex) : List Char → Option (List Char)
  | [] => Regex.matchAt r []
  | c :: cs =>
    match Regex.matchAt r (c :: cs) with
    | some m => some m
    | none => Regex.Find r cs

end regexp

namespace strconv

/-- The state of the mantissa scan of `readFloat` (decimal numerals). -/
structure floatScan where
  mantissa : Nat
  fracDigits : Nat
  sawdot : Bool
  sawdigits : Bool
  underscores : Bool
deriving DecidableEq, Repr

/-- The digit loop of `readFloat`: consumes digits, underscores and at most one period, and
returns the scan state with the unread rest. -/
def scanMantissa : floatScan → List Char → floatScan × List Char
  | st, [] => (st, [])
  | st, c :: cs =>
    if c = '_' then scanMantissa { st with underscores := true } cs
    else if c = '.' then
      if st.sawdot then (st, c :: cs) else scanMantissa { st with sawdot := true } cs
    else if c.isDigit then
      scanMantissa { st with
        sawdigits := true
        mantissa := st.mantissa * 10 + (c.toNat - 48)
        fracDigits := if st.sawdot then st.fracDigits + 1 else st.fracDigits } cs
    else (st, c :: cs)

/-- The exponent digit loop of `readFloat`: digits and underscores; returns the exponent, whether
an underscore was seen, and the unread rest. -/
def scanExponent : Nat → Bool → List Char → Nat × Bool × List Char
  | e, u, [] => (e, u, [])
  | e, u, c :: cs =>
    if c = '_' then scanExponent e true cs
    else if c.isDigit then scanExponent (e * 10 + (c.toNat - 48)) u cs
    else (e, u, c :: cs)

/-- The scan of `underscoreOK` after the optional sign, for a numeral without base prefix:
`saw` is the class of the last character (a digit, an underscore, or another character). -/
def underscoreScan : Char → List Char → Bool
  | saw, [] => saw != '_'
  | saw, c :: cs =>
    if c.isDigit then underscoreScan '0' cs
    else if c = '_' then
      if saw != '0' then false else underscoreScan '_' cs
    else if saw = '_' then false
    else underscoreScan '!' cs

/-- The optional sign read by `readFloat` and `underscoreOK`: whether it is a minus, and the
rest. -/
def readSign : List Char → Bool × List Char
  | [] => (false, [])
  | c :: cs => if c = '+' then (false, cs) else if c = '-' then (true, cs) else (false, c :: cs)

/-- Reports whether the underscores of a numeral without base prefix are allowed: each one
separates two digits (`underscoreOK`). -/
def underscoreOK (s : List Char) : Bool := underscoreScan '^' (readSign s).2

/-- The decimal numeral read by `readFloat`: a sign, a mantissa and a power of ten. -/
structure decimal where
  neg : Bool
  mantissa : Nat
  exp : Int
deriving DecidableEq, Repr

/-- The number denoted by a decimal numeral. -/
def decimal.value (x : decimal) : ℚ :=
  let v : ℚ := (x.mantissa : ℚ) * (10 : ℚ) ^ x.exp
  if x.neg then -v else v

/-- The end of `readFloat` once the exponent `e` is known: `u` tells whether an underscore was
read, `rest` is the unread input and `s` the whole input. -/
def finishFloat (s : List Char) (neg : Bool) (st : floatScan) (e : Int) (u : Bool)
    (rest : List Char) : Option (decimal × List Char) :=
  if u && !underscoreOK (s.take (s.length - rest.length)) then none
  else some ({ neg := neg, mantissa := st.mantissa, exp := e - (st.fracDigits : Int) }, rest)

/-- The decimal path of `readFloat`: sign, mantissa, optional exponent. Returns the numeral
read and the unread rest, or `none` when no numeral starts the input. -/
def readFloat (s : List Char) : Option (decimal × List Char) :=
  let signed := readSign s
  let scanned := scanMantissa
    { mantissa := 0, fracDigits := 0, sawdot := false, sawdigits := false, underscores := false }
    signed.2
  let st := scanned.1
  if !st.sawdigits then none
  else
    match scanned.2 with
    | [] => finishFloat s signed.1 st 0 st.underscores []
    | c :: rest =>
      if c = 'e' ∨ c = 'E' then
        let esigned := readSign rest
        match esigned.2 with
        | [] => none
        | x :: xs =>
          if x.isDigit then
            let ex := scanExponent 0 st.underscores (x :: xs)
            finishFloat s signed.1 st (if esigned.1 then -(ex.1 : Int) else (ex.1 : Int))
              ex.2.1 ex.2.2
          else none
      else finishFloat s signed.1 st 0 st.underscores (c :: rest)

/-- The function `strconv.ParseFloat` on decimal numerals: the value and whether an error is
returned. A syntax error yields the value 0. Hexadecimal numerals, infinities and NaN are
reported as syntax errors in this model, and so is a `0x` prefix without exponent in Go; the
precision argument only selects the rounding of the result, which the model leaves exact. -/
def ParseFloat (s : String) (_bitSize : Nat) : ℚ × Bool :=
  match readFloat s.data with
  | some (x, []) => (x.value, false)
  | _ => (0, true)

end strconv

namespace time

/-- The calendar date of a `time.Time`, as read by its methods `Year`, `Month` and `Day`. -/
structure Time where
  Year : Int
  Month : Nat
  Day : Nat
deriving DecidableEq, Repr

end time

/-- The canonical text of a UUID (`UUID.String`): 8-4-4-4-12 lower-case hexadecimal digits. -/
def uuid.String (u : Bytes16) : String :=
  fmt.hexBytes [u 0, u 1, u 2, u 3] ++ "-" ++ fmt.hexBytes [u 4, u 5] ++ "-" ++
    fmt.hexBytes [u 6, u 7] ++ "-" ++ fmt.hexBytes [u 8, u 9] ++ "-" ++
    fmt.hexBytes [u 10, u 11, u 12, u 13, u 14, u 15]

/-! ## SHA-1 and base64 (`crypto/sha1`, `encoding/base64`) -/

namespace sha1

/-- The 32-bit left rotation. -/
def rotl32 (x n : Nat) : Nat := ((x <<< n) ||| (x >>> (32 - n))) % 2 ^ 32

/-- The `k` low-order bytes of a number, most significant first. -/
def beBytes : Nat → Nat → List Nat
  | 0, _ => []
  | k + 1, x => (x / 256 ^ k) % 256 :: beBytes k x

/-- The number written by a byte list, most significant byte first. -/
def beValue (bs : List Nat) : Nat := bs.foldl (fun acc b => acc * 256 + b) 0

/-- Message padding: the byte 0x80, zeros up to 56 modulo 64, then the bit length on 8 bytes. -/
def pad (msg : List Nat) : List Nat :=
  let l := msg.length
  let zeros := (55 + 64 - l % 64) % 64
  msg ++ 0x80 :: List.replicate zeros 0 ++ beBytes 8 (8 * l)

/-- The message schedule: `n` further words after the given ones, kept newest first. -/
def extend : Nat → List Nat → List Nat
  | 0, rev => rev
  | n + 1, rev =>
    let w := rotl32 (rev.getD 2 0 ^^^ rev.getD 7 0 ^^^ rev.getD 13 0 ^^^ rev.getD 15 0) 1
    extend n (w :: rev)

/-- The first `k` big-endian words of a block. -/
def blockWords : Nat → List Nat → List Nat
  | 0, _ => []
  | k + 1, bs => beValue (bs.take 4) :: blockWords k (bs.drop 4)

/-- The five chaining words. -/
structure State where
  a : Nat
  b : Nat
  c : Nat
  d : Nat
  e : Nat
deriving DecidableEq, Repr

/-- Round `t` of the compression function on the schedule word `w`. -/
def round (t : Nat) (s : State) (w : Nat) : State :=
  let fk : Nat × Nat :=
    if t < 20 then ((s.b &&& s.c) ||| ((s.b ^^^ 0xFFFFFFFF) &&& s.d), 0x5A827999)
    else if t < 40 then (s.b ^^^ s.c ^^^ s.d, 0x6ED9EBA1)
    else if t < 60 then ((s.b &&& s.c) ||| (s.b &&& s.d) ||| (s.c &&& s.d), 0x8F1BBCDC)
    else (s.b ^^^ s.c ^^^ s.d, 0xCA62C1D6)
  { a := (rotl32 s.a 5 + fk.1 + s.e + fk.2 + w) % 2 ^ 32
    b := s.a
    c := rotl32 s.b 30
    d := s.c
    e := s.d }

/-- The rounds of one block, from round `t` on. -/
def rounds : Nat → State → List Nat → State
  | _, s, [] => s
  | t, s, w :: ws => rounds (t + 1) (round t s w) ws

/-- The compression of one 64-byte block into the chaining state. -/
def block (h : State) (bs : List Nat) : State :=
  let ws := (extend 64 (blockWords 16 bs).reverse).reverse
  let r := rounds 0 h ws
  { a := (h.a + r.a) % 2 ^ 32, b := (h.b + r.b) % 2 ^ 32, c := (h.c + r.c) % 2 ^ 32,
    d := (h.d + r.d) % 2 ^ 32, e := (h.e + r.e) % 2 ^ 32 }

/-- The compression of `n` consecutive blocks. -/
def blocks : Nat → State → List Nat → State
  | 0, h, _ => h
  | n + 1, h, bs => blocks n (block h (bs.take 64)) (bs.drop 64)

/-- The 20-byte digest of a byte sequence (`sha1.New`, `Write`, `Sum(nil)`). -/
def Sum (msg : List Nat) : List Nat :=
  let p := pad msg
  let h := blocks (p.length / 64)
    { a := 0x67452301, b := 0xEFCDAB89, c := 0x98BADCFE, d := 0x10325476, e := 0xC3D2E1F0 } p
  beBytes 4 h.a ++ beBytes 4 h.b ++ beBytes 4 h.c ++ beBytes 4 h.d ++ beBytes 4 h.e

end sha1

namespace base64

/-- The URL-safe alphabet: `A`-`Z`, `a`-`z`, `0`-`9`, `-`, `_`. -/
def urlChar (n : Nat) : Char :=
  if n < 26 then Char.ofNat (65 + n)
  else if n < 52 then Char.ofNat (97 + (n - 26))
  else if n < 62 then Char.ofNat (48 + (n - 52))
  else if n = 62 then '-' else '_'

/-- Padded base64 over the URL-safe alphabet. -/
def urlEncode : List Nat → List Char
  | [] => []
  | [x] => [urlChar (x / 4), urlChar (x % 4 * 16), '=', '=']
  | [x, y] => [urlChar (x / 4), urlChar (x % 4 * 16 + y / 16), urlChar (y % 16 * 4), '=']
  | x :: y :: z :: rest =>
    urlChar (x / 4) :: urlChar (x % 4 * 16 + y / 16) :: urlChar (y % 16 * 4 + z / 64) ::
      urlChar (z % 64) :: urlEncode rest

/-- The function `base64.URLEncoding.EncodeToString`. -/
def URLEncodeToString (bs : List Nat) : String := ⟨urlEncode bs⟩

end base64

/-! ## Package `athletes` -/

namespace athletes

/-- The record `athleteWithID`. -/
structure athleteWithID where
  ID : String
  SHA : String
  Name : String
  Club : String
deriving DecidableEq, Repr

/-- The two indexes of the struct `cache`; the log channels and the mutex carry no data of the
sequential behaviour. -/
structure cache where
  competitorsBySHA : GoMap athleteWithID
  competitorsByGuid : GoMap athleteWithID

/-- The fingerprint `sha(name, club)`: each argument is lower-cased and then trimmed, the two
are concatenated, hashed with SHA-1 and written in URL-safe base64. -/
def sha (name club : String) : String :=
  let n := strings.TrimSpace (strings.ToLower name)
  let c := strings.TrimSpace (strings.ToLower club)
  let s := n ++ c
  base64.URLEncodeToString (sha1.Sum (s.toUTF8.toList.map (fun b => b.toNat)))

/-- The identity `guid()` built from sixteen random bytes `b`:
`Sprintf("%x-%x-%x-%x-%x", b[0:4], b[4:6], b[6:8], b[8:10], b[10:])`. -/
def guid (b : Bytes16) : String :=
  fmt.hexBytes [b 0, b 1, b 2, b 3] ++ "-" ++ fmt.hexBytes [b 4, b 5] ++ "-" ++
    fmt.hexBytes [b 6, b 7] ++ "-" ++ fmt.hexBytes [b 8, b 9] ++ "-" ++
    fmt.hexBytes [b 10, b 11, b 12, b 13, b 14, b 15]

/-- The method `all`: the records of the fingerprint index. -/
def cache.all (c : cache) : List athleteWithID := c.competitorsBySHA.entries.map (fun e => e.2)

/-- The method `id`: the returned string and the cache after the call. -/
def cache.id (c : cache) (name club : String) : String × cache :=
  let sha := sha name club
  match c.competitorsBySHA.lookup sha with
  | some a => (a.ID, c)
  | none =>
    -- under the mutex
    match c.competitorsBySHA.lookup sha with
    | some a => (a.ID, c)
    | none => ("unknown", c)

/-- The method `competitor`: the returned record, the flag `existed` and the cache after the
call; `rnd` is the random input read by `guid()` when a record is created. -/
def cache.competitor (c : cache) (name club : String) (rnd : Bytes16) :
    (athleteWithID × Bool) × cache :=
  let sha := sha name club
  match c.competitorsBySHA.lookup sha with
  | some a => ((a, true), c)
  | none =>
    -- under the mutex
    match c.competitorsBySHA.lookup sha with
    | some a => ((a, true), c)
    | none =>
      let a : athleteWithID := { ID := guid rnd, SHA := sha, Name := name, Club := club }
      ((a, false),
        { competitorsBySHA := c.competitorsBySHA.insert sha a
          competitorsByGuid := c.competitorsByGuid.insert a.ID a })

/-- The cache before any record is loaded or created. -/
def emptyCache : cache := { competitorsBySHA := ∅, competitorsByGuid := ∅ }

end athletes

/-! ## Package `types` -/

namespace types

/-- Modelled from the spec: the declaration of the course of an event is not among the
sources; `Name` and `Info` are the fields read by `getCompetition`. -/
structure Course where
  Name : String
  Info : String
deriving DecidableEq, Repr

/-- Modelled from the spec: the declaration of `types.Event` is not among the sources; the
fields are those read by `getCompetition`. A nil and an empty `Courses` slice are both the
empty list: `getCompetition` leaves the courses of the competition nil for either. -/
structure Event where
  Number : Int
  Name : String
  Date : time.Time
  Courses : List Course
  Info : String
  URL : String
  URLInvite : String
  URLLiveLox : String
  Place : String
  Organizer : String
  Responsible : String
deriving DecidableEq, Repr

/-- Modelled from the spec: the declaration of the element type of `SeasonFetch.Results` is
not among the sources; `Event` is the field read by `Start`, `none` being the nil pointer. -/
structure Result where
  Event : Option Event
deriving DecidableEq, Repr

/-- Modelled from the spec: the declaration of `types.SeasonFetch` is not among the sources;
`Results` is the field read by `Start`, `none` being the nil slice. -/
structure SeasonFetch where
  Results : Option (List Result)
deriving DecidableEq, Repr

end types

/-! ## Package `storage` -/

namespace storage

/-- Modelled from the spec: the declaration of the struct `course` is not among the sources;
the fields are those set by `getCompetition`. -/
structure course where
  ID : String
  Name : String
  Info : String
  Length : ℚ
  CourseType : String
deriving DecidableEq, Repr

/-- Modelled from the spec: the declaration of the struct `competition` is not among the
sources; the fields are those set by `getCompetition`. -/
structure competition where
  ID : String
  Number : Int
  Name : String
  Date : time.Time
  Courses : List course
  Info : String
  URL : String
  URLInvite : String
  URLLiveLox : String
  Place : String
  Organizer : String
  Responsible : String
deriving DecidableEq, Repr

/-- The pattern `\(\d{1,2}(.|,)\d{1} km\)`; its period is the any-character class. -/
def patternCompetitionLength : regexp.Regex :=
  regexp.Regex.seq [regexp.Regex.lit '(', regexp.Regex.rep regexp.Regex.digit 1 2,
    regexp.Regex.alt regexp.Regex.anyNotNL (regexp.Regex.lit ','),
    regexp.Regex.rep regexp.Regex.digit 1 1,
    regexp.Regex.lit ' ', regexp.Regex.lit 'k', regexp.Regex.lit 'm', regexp.Regex.lit ')']

/-- The pattern `\d{1,2}(.|,)\d{1}`; its period is the any-character class. -/
def patternFloat : regexp.Regex :=
  regexp.Regex.seq [regexp.Regex.rep regexp.Regex.digit 1 2,
    regexp.Regex.alt regexp.Regex.anyNotNL (regexp.Regex.lit ','),
    regexp.Regex.rep regexp.Regex.digit 1 1]

/-- The compiled pattern `regexCompetitionLength`. -/
def regexCompetitionLength : regexp.Regex := patternCompetitionLength

/-- The compiled pattern `regexFloat`. -/
def regexFloat : regexp.Regex := patternFloat

/-- The function `getCourseType`. -/
def getCourseType (n : String) : String :=
  let l := strings.ToLower n
  if strings.Contains l "lang" then "long"
  else if strings.Contains l "mellom" then "medium"
  else if strings.Contains l "kort" then "short"
  else "newbie"

/-- The function `getCourseLength`. -/
def getCourseLength (n : String) : ℚ :=
  match regexCompetitionLength.Find n.data with
  | none => 0
  | some r =>
    if r.length = 0 then 0
    else
      -- a nil result of the second search converts to the empty string
      let r2 := (regexFloat.Find r).getD []
      let s := strings.ReplaceAll ⟨r2⟩ "," "."
      (strconv.ParseFloat s 10).1

/-- The function `makeCompetitionID`; `guid` is the value of `uuid.New()`. -/
def makeCompetitionID (dt : time.Time) (guid : Bytes16) : String :=
  fmt.d dt.Year ++ fmt.d02 dt.Month ++ fmt.d02 dt.Day ++ "-" ++
    ⟨(uuid.String guid).data.take 4⟩

/-- The function `getCompetition`. -/
def getCompetition (id : String) (e : types.Event) : competition :=
  { ID := id
    Number := e.Number
    Name := e.Name
    Date := e.Date
    Courses := e.Courses.map (fun ec =>
      let courseType := getCourseType ec.Name
      { ID := id ++ "-" ++ courseType
        Name := ec.Name
        Info := ec.Info
        Length := getCourseLength ec.Name
        CourseType := courseType })
    Info := e.Info
    URL := e.URL
    URLInvite := e.URLInvite
    URLLiveLox := e.URLLiveLox
    Place := e.Place
    Organizer := e.Organizer
    Responsible := e.Responsible }

/-- The struct `competitionServiceImpl`: the competition map and the persist collaborator,
whose returned error (`none` for nil) the code never reads. -/
structure competitionServiceImpl where
  competitions : GoMap competition
  persist : List competition → Option String

/-- The method `List`: the competitions of the map and the error, which is always nil. -/
def competitionServiceImpl.List (c : competitionServiceImpl) :
    List competition × Option String :=
  (c.competitions.entries.map (fun e => e.2), none)

/-- An effect of the `Start` goroutine that is visible outside the store. -/
inductive effect where
  | persisted (l : List competition) : effect
  | done : effect
deriving DecidableEq, Repr

/-- The variables of one pass over `fetch.Results`: the competition map, the flag `anyChange`
and the number of UUIDs generated so far. -/
structure syncState where
  competitions : GoMap competition
  anyChange : Bool
  drawn : Nat

/-- The body of the loop over `fetch.Results` for one result; `rnd` is the stream of values of
`uuid.New()`. -/
def syncResult (rnd : Nat → Bytes16) (st : syncState) (result : types.Result) : syncState :=
  match result.Event with
  | none => st
  | some e =>
    let id := makeCompetitionID e.Date (rnd st.drawn)
    match st.competitions.lookup id with
    | some _ => { st with drawn := st.drawn + 1 }
    | none =>
      { competitions := st.competitions.insert id (getCompetition id e)
        anyChange := true
        drawn := st.drawn + 1 }

/-- The loop over `fetch.Results`. -/
def syncResults (rnd : Nat → Bytes16) (st : syncState) (results : List types.Result) :
    syncState :=
  results.foldl (syncResult rnd) st

/-- The outcome of one iteration of the loop of `Start`: the store, the effects in the order
they happen, and the number of UUIDs generated. -/
structure iteration where
  service : competitionServiceImpl
  effects : List effect
  drawn : Nat

/-- One iteration of the loop of the method `Start` on the received batch `fetch`, up to the
next receive on the season channel. -/
def competitionServiceImpl.StartIteration (c : competitionServiceImpl)
    (fetch : types.SeasonFetch) (rnd : Nat → Bytes16) : iteration :=
  match fetch.Results with
  | none => { service := c, effects := [], drawn := 0 }
  | some results =>
    let st := syncResults rnd
      { competitions := c.competitions, anyChange := false, drawn := 0 } results
    let c1 : competitionServiceImpl := { c with competitions := st.competitions }
    if st.anyChange then
      match c1.List with
      | (_, some _) => { service := c1, effects := [], drawn := st.drawn }
      | (l, none) =>
        let _ := c1.persist l
        { service := c1, effects := [effect.persisted l, effect.done], drawn := st.drawn }
    else { service := c1, effects := [effect.done], drawn := st.drawn }

/-- The value of a decimal digit. -/
def digitValue (c : Char) : Nat := c.toNat - 48

/-- The number written by a sequence of decimal digits. -/
def decimalValue (ds : List Char) : Nat := ds.foldl (fun acc c => 10 * acc + digitValue c) 0

/-- The text `YYYYMMDD-` that `makeCompetitionID` writes for a date before the random part. -/
def datePrefix (dt : time.Time) : String :=
  fmt.d dt.Year ++ fmt.d02 dt.Month ++ fmt.d02 dt.Day ++ "-"

/-- The events carried by the results of a batch, in order. -/
def eventsOf (results : List types.Result) : List types.Event :=
  results.filterMap (fun r => r.Event)

/-- The pattern `\d{1,2}[.,]\d km` by which the specification describes a course length: one
or two digits, a period or a comma, one digit, then ` km`. -/
def specLengthPattern : regexp.Regex :=
  regexp.Regex.seq [regexp.Regex.rep regexp.Regex.digit 1 2,
    regexp.Regex.alt (regexp.Regex.lit '.') (regexp.Regex.lit ','), regexp.Regex.digit,
    regexp.Regex.lit ' ', regexp.Regex.lit 'k', regexp.Regex.lit 'm']

/-- An event of 17 May 2019 with two courses. -/
def exampleEvent : types.Event :=
  { Number := 3, Name := "Rankingløp 3", Date := { Year := 2019, Month := 5, Day := 17 },
    Courses := [{ Name := "Lang (8,4 km)", Info := "" }, { Name := "Kort", Info := "" }],
    Info := "", URL := "", URLInvite := "", URLLiveLox := "", Place := "Skullerud",
    Organizer := "", Responsible := "" }

/-- The same event on 1 January 2018. -/
def exampleKnownEvent : types.Event :=
  { exampleEvent with Date := { Year := 2018, Month := 1, Day := 1 } }

/-- A store that holds one competition, of 1 January 2018, under the identity
`20180101-abcd`. -/
def exampleService : competitionServiceImpl :=
  { competitions := AList.singleton "20180101-abcd"
      (getCompetition "20180101-abcd" exampleKnownEvent)
    persist := fun _ => none }

/-- A stream of UUIDs whose texts all start with `abcd`. -/
def exampleUUIDs : Nat → Bytes16 := fun _ i => if i = 0 then 0xab else 0xcd

/-- A stream of UUIDs whose texts all start with `ef01`. -/
def exampleOtherUUIDs : Nat → Bytes16 := fun _ i => if i = 0 then 0xef else 0x01

/-- The number of acknowledgments sent on the done channel in a trace of effects. -/
def acknowledgments (es : List effect) : Nat := es.count effect.done

/-- The arguments of the calls of the persist collaborator in a trace of effects. -/
def persistCalls : List effect → List (List competition)
  | [] => []
  | effect.persisted l :: es => l :: persistCalls es
  | effect.done :: es => persistCalls es

end storage

/-! ## Further operations of the two packages -/

namespace utf8

/-- The UTF-8 encoding of a rune, which is how a Go string stores it. -/
def encodeRune (c : Char) : List Nat :=
  let v := c.toNat
  if v < 0x80 then [v]
  else if v < 0x800 then [0xC0 + v / 64, 0x80 + v % 64]
  else if v < 0x10000 then [0xE0 + v / 4096, 0x80 + v / 64 % 64, 0x80 + v % 64]
  else [0xF0 + v / 262144, 0x80 + v / 4096 % 64, 0x80 + v / 64 % 64, 0x80 + v % 64]

/-- The bytes of a Go string. -/
def bytes (s : String) : List Nat := s.data.flatMap encodeRune

end utf8

namespace athletes

/-- Modelled from the spec: the bytes of a persisted blob (`persist.ReadResult.Data`) are
represented by the outcome of `json.Unmarshal` on them: the error of a malformed blob, or the
decoded record. -/
abbrev blob : Type := Except String athleteWithID

/-- The variables of the receiving loop of `init`: the two local maps and the errors sent on
the error channel. -/
structure loadState where
  sha : GoMap athleteWithID
  guid : GoMap athleteWithID
  errors : List String

/-- The body of the receiving loop of `init` for one blob. -/
def loadBlob (st : loadState) (b : blob) : loadState :=
  match b with
  | Except.error err => { st with errors := st.errors ++ [err] }
  | Except.ok athlete =>
    let sha := st.sha.insert athlete.SHA athlete
    -- the identity index receives the record just stored under the fingerprint
    match sha.lookup athlete.SHA with
    | some stored => { st with sha := sha, guid := st.guid.insert athlete.ID stored }
    -- not reached: the key was stored on the line before
    | none => { st with sha := sha }

/-- The outcome of `init`: the cache, the errors logged, and the count carried by the
`initialized` event. -/
structure initOutcome where
  cache : cache
  errors : List String
  count : Nat

/-- The method `init` on the blobs streamed by the reader, all received before the reader
signals completion: the cache receives the two maps filled by the loop and the event reports
`len(sha)`. -/
def cache.init (_c : cache) (blobs : List blob) : initOutcome :=
  let st := blobs.foldl loadBlob { sha := ∅, guid := ∅, errors := [] }
  { cache := { competitorsBySHA := st.sha, competitorsByGuid := st.guid }
    errors := st.errors
    count := st.sha.entries.length }

/-- The records decoded from the well-formed blobs, in order. -/
def recordsOf (blobs : List blob) : List athleteWithID :=
  blobs.filterMap (fun b => match b with
    | Except.ok a => some a
    | Except.error _ => none)

/-- The blobs that are well formed. -/
def wellFormed (blobs : List blob) : List blob :=
  blobs.filter (fun b => match b with
    | Except.ok _ => true
    | Except.error _ => false)

/-- The two indexes agree: every record of either index is stored under its own fingerprint
in the fingerprint index and under its own identity in the identity index. -/
def cache.consistent (c : cache) : Prop :=
  (∀ k a, c.competitorsBySHA.lookup k = some a →
      a.SHA = k ∧ c.competitorsByGuid.lookup a.ID = some a) ∧
    (∀ k a, c.competitorsByGuid.lookup k = some a →
      a.ID = k ∧ c.competitorsBySHA.lookup a.SHA = some a)

/-- Persisted records pair fingerprints and identities one to one: two of them have the same
fingerprint exactly when they have the same identity. -/
def pairedKeys (rs : List athleteWithID) : Prop :=
  ∀ a ∈ rs, ∀ b ∈ rs, (a.SHA = b.SHA ↔ a.ID = b.ID)

/-- The cache states reached by `init` on blobs with paired keys, followed by calls of
`competitor` whose generated identity is fresh. -/
inductive reachable : cache → Prop where
  | init (c : cache) (blobs : List blob) (h : pairedKeys (recordsOf blobs)) :
      reachable (c.init blobs).cache
  | competitor (c : cache) (name club : String) (rnd : Bytes16) (hc : reachable c)
      (hfresh : guid rnd ∉ c.competitorsByGuid) : reachable (c.competitor name club rnd).2

end athletes

namespace storage

/-- Modelled from the spec: the declaration of the struct `competitionAndCourse` is not among
the sources; the fields are those set by `CompetitionByNames`. -/
structure competitionAndCourse where
  competition : competition
  course : course
deriving DecidableEq, Repr

/-- The inner loop of `CompetitionByNames` over the courses of one competition. -/
def findCourse (courseName : String) : List course → Option course
  | [] => none
  | crs :: rest => if crs.Name ≠ courseName then findCourse courseName rest else some crs

/-- The outer loop of `CompetitionByNames` over the competitions of the map. -/
def findCompetitionAndCourse (eventName courseName : String) :
    List competition → Option competitionAndCourse
  | [] => none
  | comp :: rest =>
    if comp.Name ≠ eventName then findCompetitionAndCourse eventName courseName rest
    else
      match findCourse courseName comp.Courses with
      | some crs => some { competition := comp, course := crs }
      | none => findCompetitionAndCourse eventName courseName rest

/-- The method `CompetitionByNames`: the pair found, or the not-found error. -/
def competitionServiceImpl.CompetitionByNames (c : competitionServiceImpl)
    (eventName courseName : String) : Except String competitionAndCourse :=
  match findCompetitionAndCourse eventName courseName
      (c.competitions.entries.map (fun e => e.2)) with
  | some res => Except.ok res
  | none =>
    Except.error ("could not find competition " ++ eventName ++ " with course " ++ courseName)

/-- The loop of `CompetitionsForSeason`: `k[0:4]` is a slice of the bytes of the key, and the
call panics (`none`) when a key has fewer than four bytes. -/
def seasonLoop (s : String) :
    List (Sigma (fun _ : String => competition)) → List competition → Option (List competition)
  | [], result => some result
  | e :: rest, result =>
    if (utf8.bytes e.1).length < 4 then none
    else if (utf8.bytes e.1).take 4 = utf8.bytes s then seasonLoop s rest (result ++ [e.2])
    else seasonLoop s rest result

/-- The slice type `[]*competition`. -/
abbrev competitionSlice : Type := List competition

/-- The method `CompetitionsForSeason`; `none` stands for the panic of an out-of-range slice. -/
def competitionServiceImpl.CompetitionsForSeason (c : competitionServiceImpl) (season : Int) :
    Option competitionSlice :=
  seasonLoop (fmt.d season) c.competitions.entries []

/-- A lower-case hexadecimal digit. -/
def isLowerHex (c : Char) : Bool := c.isDigit || (('a' : Char) ≤ c && c ≤ 'f')

/-- The four course types. -/
def courseTypes : List String := ["long", "medium", "short", "newbie"]

/-- The course built by `getCompetition` for the second course of `exampleEvent` under the
identity `20190517-abcd`. -/
def exampleShortCourse : course :=
  { ID := "20190517-abcd-short", Name := "Kort", Info := "", Length := 0, CourseType := "short" }

/-- The course built by `getCompetition` for the first course of `exampleEvent` under the
identity `20190517-abcd`. -/
def exampleLongCourse : course :=
  { ID := "20190517-abcd-long", Name := "Lang (8,4 km)", Info := "",
    Length := getCourseLength "Lang (8,4 km)", CourseType := "long" }

/-- An event with two courses whose names both contain `lang`. -/
def exampleTwoLongEvent : types.Event :=
  { exampleEvent with
    Courses := [{ Name := "Lang A", Info := "" }, { Name := "Lang B", Info := "" }] }

end storage

namespace athletes

/-- A persisted record. -/
def exampleAthlete : athleteWithID :=
  { ID := "1", SHA := sha "Jane Doe" "Club", Name := "Jane Doe", Club := "Club" }

/-- A persisted record with the fingerprint of `exampleAthlete` and another identity. -/
def exampleSameSHA : athleteWithID := { exampleAthlete with ID := "2" }

/-- A persisted record with the identity of `exampleAthlete` and another fingerprint. -/
def exampleSameID : athleteWithID :=
  { ID := "1", SHA := sha "John Doe" "Club", Name := "John Doe", Club := "Club" }

end athletes

/-! ## Properties of the fingerprint -/

namespace unicode

theorem toNat_ofNat_of_valid (n : Nat) (h : n.isValidChar) : (Char.ofNat n).toNat = n := by
  simp [Char.ofNat, h, Char.ofNatAux, Char.toNat]
  rfl

theorem toNat_ofNat_of_lt (n : Nat) (h : n < 0xD800) : (Char.ofNat n).toNat = n :=
  toNat_ofNat_of_valid n (Or.inl h)

theorem lowerRanges_spaceFree : lowerRanges.all CaseRange.spaceFree = true := by decide

theorem IsSpace_of_spaceFree (a b : Nat) (c : Char) (h : spaceFree a b = true)
    (ha : a ≤ c.toNat) (hb : c.toNat ≤ b) : IsSpace c = false := by
  simp only [spaceFree, Bool.and_eq_true, Bool.or_eq_true, decide_eq_true_eq] at h
  simp only [IsSpace, Bool.or_eq_false_iff, Bool.and_eq_false_iff, decide_eq_false_iff_not]
  omega

theorem IsSpace_of_caseRange (r : CaseRange) (hr : r ∈ lowerRanges) (c : Char)
    (hc : r.applies c.toNat = true) :
    IsSpace c = false ∧ IsSpace (Char.ofNat (r.target + (c.toNat - r.lo))) = false := by
  have hok : r.spaceFree = true := List.all_eq_true.mp lowerRanges_spaceFree r hr
  simp only [CaseRange.spaceFree, Bool.and_eq_true, Bool.or_eq_true, decide_eq_true_eq] at hok
  simp only [CaseRange.applies, Bool.and_eq_true, decide_eq_true_eq] at hc
  obtain ⟨⟨⟨_, h1⟩, h2⟩, hv⟩ := hok
  obtain ⟨⟨hlo, hhi⟩, _⟩ := hc
  refine ⟨IsSpace_of_spaceFree _ _ c h1 hlo hhi, ?_⟩
  have hvalid : (r.target + (c.toNat - r.lo)).isValidChar := by
    rcases hv with hv | hv
    · exact Or.inl (by omega)
    · exact Or.inr ⟨by omega, by omega⟩
  apply IsSpace_of_spaceFree _ _ _ h2
  · rw [toNat_ofNat_of_valid _ hvalid]
    omega
  · rw [toNat_ofNat_of_valid _ hvalid]
    omega

/-- Lower-casing maps white space to white space and other runes to other runes. -/
theorem IsSpace_ToLower (c : Char) : IsSpace (ToLower c) = IsSpace c := by
  unfold ToLower
  simp only []
  split
  · split
    · next h =>
      simp only [Bool.and_eq_true, decide_eq_true_eq] at h
      have h1 : IsSpace c = false := IsSpace_of_spaceFree 65 90 c (by decide) h.1 h.2
      have h2 : IsSpace (Char.ofNat (c.toNat + 32)) = false := by
        apply IsSpace_of_spaceFree 97 122 _ (by decide)
        · rw [toNat_ofNat_of_lt _ (by omega)]
          omega
        · rw [toNat_ofNat_of_lt _ (by omega)]
          omega
      rw [h1, h2]
    · rfl
  · split
    · next r hfind =>
      have hmem : r ∈ lowerRanges := List.mem_of_find?_eq_some hfind
      have happ := List.find?_some hfind
      obtain ⟨h1, h2⟩ := IsSpace_of_caseRange r hmem c happ
      rw [h1, h2]
    · rfl

end unicode

namespace strings

theorem dropWhile_IsSpace_map (l : List Char) :
    (l.map unicode.ToLower).dropWhile unicode.IsSpace =
      (l.dropWhile unicode.IsSpace).map unicode.ToLower := by
  induction l with
  | nil => rfl
  | cons c cs ih =>
    simp only [List.map_cons, List.dropWhile_cons, unicode.IsSpace_ToLower]
    split
    · exact ih
    · rfl

theorem rdropWhile_IsSpace_map (l : List Char) :
    (l.map unicode.ToLower).rdropWhile (fun c => unicode.IsSpace c) =
      (l.rdropWhile (fun c => unicode.IsSpace c)).map unicode.ToLower := by
  simp only [List.rdropWhile, ← List.map_reverse]
  have h := dropWhile_IsSpace_map l.reverse
  simp only [← List.map_reverse] at h ⊢
  exact congrArg List.reverse h |>.trans (by simp)

/-- Trimming and lower-casing commute. -/
theorem TrimSpace_ToLower (s : String) : TrimSpace (ToLower s) = ToLower (TrimSpace s) := by
  simp only [TrimSpace, ToLower, dropWhile_IsSpace_map, rdropWhile_IsSpace_map]

end strings

namespace athletes

/-- C7: the fingerprint depends on its arguments only through their trimmed lower-case forms,
so it is unchanged by changes of letter case and of leading or trailing white space. -/
theorem sha_eq_of_normalized_eq (n1 c1 n2 c2 : String)
    (hn : strings.ToLower (strings.TrimSpace n1) = strings.ToLower (strings.TrimSpace n2))
    (hc : strings.ToLower (strings.TrimSpace c1) = strings.ToLower (strings.TrimSpace c2)) :
    sha n1 c1 = sha n2 c2 := by
  simp only [sha, strings.TrimSpace_ToLower, hn, hc]

theorem sha_eq_of_normalized_eq_witness :
    (strings.ToLower (strings.TrimSpace "Jane Doe") =
        strings.ToLower (strings.TrimSpace " jane doe ") ∧
      strings.ToLower (strings.TrimSpace "Club") = strings.ToLower (strings.TrimSpace "CLUB")) ∧
      sha "Jane Doe" "Club" = sha " jane doe " "CLUB" ∧
      sha "Łukasz Żak" "Club" = sha " łukasz żak" "CLUB" :=
  ⟨⟨by decide, by decide⟩,
    sha_eq_of_normalized_eq "Jane Doe" "Club" " jane doe " "CLUB" (by decide) (by decide),
    sha_eq_of_normalized_eq "Łukasz Żak" "Club" " łukasz żak" "CLUB" (by decide) (by decide)⟩

/-- After a call on an absent fingerprint the created record is stored under it. -/
theorem lookup_competitor_of_absent (c : cache) (name club : String) (rnd : Bytes16)
    (h : c.competitorsBySHA.lookup (sha name club) = none) :
    (c.competitor name club rnd).2.competitorsBySHA.lookup (sha name club) =
      some { ID := guid rnd, SHA := sha name club, Name := name, Club := club } := by
  simp [cache.competitor, h, AList.lookup_insert]

/-- C4: `competitor` creates a record exactly when the fingerprint is absent: the new record is
returned with `existed = false`, is stored in both indexes, and a second call returns the same
record with `existed = true`; when the fingerprint is present the stored record is returned with
`existed = true`; a call that returns `existed = true` leaves both indexes unchanged. -/
theorem competitor_create_or_get (c : cache) (name club : String) (rnd rnd2 : Bytes16) :
    (c.competitorsBySHA.lookup (sha name club) = none →
      (c.competitor name club rnd).1 =
          ({ ID := guid rnd, SHA := sha name club, Name := name, Club := club }, false) ∧
        (c.competitor name club rnd).2.competitorsBySHA.lookup (sha name club) =
          some (c.competitor name club rnd).1.1 ∧
        (c.competitor name club rnd).2.competitorsByGuid.lookup (guid rnd) =
          some (c.competitor name club rnd).1.1 ∧
        (c.competitor name club rnd).2.competitor name club rnd2 =
          (((c.competitor name club rnd).1.1, true), (c.competitor name club rnd).2)) ∧
      (∀ a, c.competitorsBySHA.lookup (sha name club) = some a →
        c.competitor name club rnd = ((a, true), c)) ∧
      ((c.competitor name club rnd).1.2 = true → (c.competitor name club rnd).2 = c) := by
  refine ⟨?_, ?_, ?_⟩
  · intro h
    simp [cache.competitor, h, AList.lookup_insert]
  · intro a h
    simp [cache.competitor, h]
  · cases h : c.competitorsBySHA.lookup (sha name club) with
    | none => simp [cache.competitor, h]
    | some a => simp [cache.competitor, h]

theorem competitor_create_or_get_witness :
    (emptyCache.competitor "Jane Doe" "Club" (fun _ => 7)).1.2 = false ∧
      ((emptyCache.competitor "Jane Doe" "Club" (fun _ => 7)).2.competitor "Jane Doe" "Club"
          (fun _ => 9)).1 =
        ({ ID := guid (fun _ => 7), SHA := sha "Jane Doe" "Club", Name := "Jane Doe",
            Club := "Club" }, true) := by
  have h := (competitor_create_or_get emptyCache "Jane Doe" "Club" (fun _ => 7)
    (fun _ => 9)).1 (AList.lookup_empty _)
  exact ⟨by rw [h.1], by rw [h.2.2.2, h.1]⟩

/-- C6: `id` returns the identity of the record stored under the fingerprint, or `unknown` when
there is none (in particular on the empty cache), and leaves both indexes unchanged. -/
theorem id_lookup_or_unknown (c : cache) (name club : String) :
    (∀ a, c.competitorsBySHA.lookup (sha name club) = some a → (c.id name club).1 = a.ID) ∧
      (c.competitorsBySHA.lookup (sha name club) = none → (c.id name club).1 = "unknown") ∧
      (emptyCache.id name club).1 = "unknown" ∧
      (c.id name club).2 = c := by
  refine ⟨?_, ?_, ?_, ?_⟩
  · intro a h
    simp [cache.id, h]
  · intro h
    simp [cache.id, h]
  · simp [cache.id, emptyCache, AList.lookup_empty]
  · cases h : c.competitorsBySHA.lookup (sha name club) with
    | none => simp [cache.id, h]
    | some a => simp [cache.id, h]

theorem id_lookup_or_unknown_witness :
    (emptyCache.id "nobody" "nowhere").1 = "unknown" ∧
      ((emptyCache.competitor "Jane Doe" "Club" (fun _ => 7)).2.id "Jane Doe" "Club").1 =
        guid (fun _ => 7) :=
  ⟨(id_lookup_or_unknown emptyCache "nobody" "nowhere").2.1 (AList.lookup_empty _),
    (id_lookup_or_unknown (emptyCache.competitor "Jane Doe" "Club" (fun _ => 7)).2
      "Jane Doe" "Club").1 _
      (lookup_competitor_of_absent emptyCache "Jane Doe" "Club" (fun _ => 7)
        (AList.lookup_empty _))⟩

end athletes

/-! ## Properties of the synchronisation loop -/

namespace storage

theorem makeCompetitionID_eq_datePrefix_append (dt : time.Time) (g : Bytes16) :
    makeCompetitionID dt g = datePrefix dt ++ ⟨(uuid.String g).data.take 4⟩ := rfl

theorem datePrefix_isPrefix_makeCompetitionID (dt : time.Time) (g : Bytes16) :
    (datePrefix dt).data <+: (makeCompetitionID dt g).data := by
  rw [makeCompetitionID_eq_datePrefix_append, String.data_append]
  exact List.prefix_append _ _

theorem syncResults_nil (rnd : Nat → Bytes16) (st : syncState) : syncResults rnd st [] = st := rfl

theorem syncResults_cons (rnd : Nat → Bytes16) (st : syncState) (r : types.Result)
    (rs : List types.Result) :
    syncResults rnd st (r :: rs) = syncResults rnd (syncResult rnd st r) rs := rfl

/-- A pass over results whose identities are all stored changes neither the map nor the flag. -/
theorem syncResults_of_all_known (rnd : Nat → Bytes16) (m : GoMap competition) :
    ∀ (rs : List types.Result) (k : Nat),
      (∀ i (hi : i < (eventsOf rs).length),
        makeCompetitionID ((eventsOf rs).get ⟨i, hi⟩).Date (rnd (k + i)) ∈ m) →
      syncResults rnd { competitions := m, anyChange := false, drawn := k } rs =
        { competitions := m, anyChange := false, drawn := k + (eventsOf rs).length } := by
  intro rs
  induction rs with
  | nil => intro k _; simp [syncResults_nil, eventsOf]
  | cons r rs ih =>
    intro k h
    rw [syncResults_cons]
    cases hev : r.Event with
    | none =>
      have hE : eventsOf (r :: rs) = eventsOf rs := by simp [eventsOf, hev]
      have hstep : syncResult rnd { competitions := m, anyChange := false, drawn := k } r =
          { competitions := m, anyChange := false, drawn := k } := by
        simp [syncResult, hev]
      rw [hstep, hE]
      apply ih
      intro i hi
      have := h i (by rw [hE]; exact hi)
      simpa [hE] using this
    | some e =>
      have hE : eventsOf (r :: rs) = e :: eventsOf rs := by simp [eventsOf, hev]
      have h0 : makeCompetitionID e.Date (rnd k) ∈ m := by
        have := h 0 (by rw [hE]; simp)
        simpa [hE] using this
      obtain ⟨co, hco⟩ := Option.isSome_iff_exists.mp (AList.lookup_isSome.mpr h0)
      have hstep : syncResult rnd { competitions := m, anyChange := false, drawn := k } r =
          { competitions := m, anyChange := false, drawn := k + 1 } := by
        simp [syncResult, hev, hco]
      rw [hstep, hE, ih (k + 1)]
      · simp [Nat.add_assoc, Nat.add_comm 1]
      · intro i hi
        have := h (i + 1) (by rw [hE]; simpa using hi)
        simpa [hE, Nat.add_assoc, Nat.add_comm 1] using this

/-- C1 (failing input): on a batch whose `Results` is nil the iteration of `Start` goes back to
the receive without any effect: no acknowledgment is sent and the store is unchanged. -/
theorem StartIteration_nil_results_sends_no_ack (c : competitionServiceImpl)
    (rnd : Nat → Bytes16) :
    acknowledgments (c.StartIteration { Results := none } rnd).effects = 0 ∧
      (c.StartIteration { Results := none } rnd).effects = [] := by
  simp [competitionServiceImpl.StartIteration, acknowledgments]

/-- On a batch whose `Results` is not nil the iteration of `Start` sends exactly one
acknowledgment, as its last effect, whatever the persist collaborator returns. -/
theorem StartIteration_acknowledges_results (c : competitionServiceImpl)
    (results : List types.Result) (rnd : Nat → Bytes16) :
    acknowledgments (c.StartIteration { Results := some results } rnd).effects = 1 ∧
      (c.StartIteration { Results := some results } rnd).effects.getLast? = some effect.done := by
  simp only [competitionServiceImpl.StartIteration, competitionServiceImpl.List]
  split <;> simp [acknowledgments, List.count_cons]

/-- C2: a batch with one result whose event has a date never seen in the store inserts the
competition built for the generated identity, makes `List()` one longer, and calls the persist
collaborator exactly once, with the listing of the store after the insertion. -/
theorem StartIteration_never_seen_date (c : competitionServiceImpl) (e : types.Event)
    (rnd : Nat → Bytes16)
    (hnew : ∀ k ∈ c.competitions.keys, ¬ (datePrefix e.Date).data <+: k.data) :
    (c.StartIteration { Results := some [{ Event := some e }] } rnd).service.competitions =
        c.competitions.insert (makeCompetitionID e.Date (rnd 0))
          (getCompetition (makeCompetitionID e.Date (rnd 0)) e) ∧
      (c.StartIteration { Results := some [{ Event := some e }] } rnd).service.List.1 =
        getCompetition (makeCompetitionID e.Date (rnd 0)) e :: c.List.1 ∧
      (c.StartIteration { Results := some [{ Event := some e }] } rnd).service.List.1.length =
        c.List.1.length + 1 ∧
      persistCalls (c.StartIteration { Results := some [{ Event := some e }] } rnd).effects =
        [(c.StartIteration { Results := some [{ Event := some e }] } rnd).service.List.1] := by
  have hid : makeCompetitionID e.Date (rnd 0) ∉ c.competitions := by
    intro hmem
    exact hnew _ (AList.mem_keys.mp hmem) (datePrefix_isPrefix_makeCompetitionID _ _)
  have hlook : c.competitions.lookup (makeCompetitionID e.Date (rnd 0)) = none :=
    AList.lookup_eq_none.mpr hid
  have hker : List.kerase (makeCompetitionID e.Date (rnd 0)) c.competitions.entries =
      c.competitions.entries := List.kerase_of_not_mem_keys hid
  simp [competitionServiceImpl.StartIteration, competitionServiceImpl.List, syncResults,
    syncResult, hlook, hker, persistCalls]

/-- C3: a batch that introduces no new competition (no results, or every result without event
or with a generated identity already stored) never calls the persist collaborator and leaves
the competition map as it was. -/
theorem StartIteration_without_new_competition (c : competitionServiceImpl)
    (fetch : types.SeasonFetch) (rnd : Nat → Bytes16)
    (hknown : ∀ rs, fetch.Results = some rs → ∀ i (hi : i < (eventsOf rs).length),
      makeCompetitionID ((eventsOf rs).get ⟨i, hi⟩).Date (rnd i) ∈ c.competitions) :
    persistCalls (c.StartIteration fetch rnd).effects = [] ∧
      (c.StartIteration fetch rnd).service.competitions = c.competitions := by
  cases hres : fetch.Results with
  | none => simp [competitionServiceImpl.StartIteration, hres, persistCalls]
  | some rs =>
    have hsync := syncResults_of_all_known rnd c.competitions rs 0
      (by intro i hi; simpa using hknown rs hres i hi)
    simp [competitionServiceImpl.StartIteration, hres, hsync, persistCalls]


theorem StartIteration_never_seen_date_witness :
    (∀ k ∈ exampleService.competitions.keys,
        ¬ (datePrefix exampleEvent.Date).data <+: k.data) ∧
      (exampleService.StartIteration { Results := some [{ Event := some exampleEvent }] }
          exampleUUIDs).service.List.1.length = exampleService.List.1.length + 1 ∧
      persistCalls (exampleService.StartIteration
          { Results := some [{ Event := some exampleEvent }] } exampleUUIDs).effects =
        [(exampleService.StartIteration { Results := some [{ Event := some exampleEvent }] }
          exampleUUIDs).service.List.1] :=
  ⟨by decide,
    (StartIteration_never_seen_date exampleService exampleEvent exampleUUIDs (by decide)).2.2⟩

theorem StartIteration_without_new_competition_witness :
    makeCompetitionID exampleKnownEvent.Date (exampleUUIDs 0) ∈ exampleService.competitions ∧
      persistCalls (exampleService.StartIteration
          { Results := some [{ Event := none }, { Event := some exampleKnownEvent }] }
          exampleUUIDs).effects = [] ∧
      (exampleService.StartIteration
          { Results := some [{ Event := none }, { Event := some exampleKnownEvent }] }
          exampleUUIDs).service.competitions = exampleService.competitions :=
  ⟨by decide,
    StartIteration_without_new_competition exampleService
      { Results := some [{ Event := none }, { Event := some exampleKnownEvent }] } exampleUUIDs
      (by
        intro rs hrs i hi
        obtain rfl : [{ Event := none }, { Event := some exampleKnownEvent }] = rs := by
          simpa using hrs
        have hi0 : i = 0 := by simpa [eventsOf] using hi
        subst hi0
        exact (by decide :
          makeCompetitionID exampleKnownEvent.Date (exampleUUIDs 0) ∈
            exampleService.competitions))⟩

end storage

/-! ## Properties of the course classification and of the course length -/

namespace strings

/-- The scan of `Contains` succeeds exactly on the contiguous sublists. -/
theorem containsAt_iff_infix (s substr : List Char) :
    containsAt s substr = true ↔ substr <:+: s := by
  induction s with
  | nil =>
    cases substr with
    | nil => simp [containsAt]
    | cons c cs => simp [containsAt, List.isPrefixOf]
  | cons c cs ih =>
    simp only [containsAt, Bool.or_eq_true, ih, List.infix_cons_iff, List.isPrefixOf_iff_prefix]

theorem Contains_iff_infix (s substr : String) :
    Contains s substr = true ↔ substr.data <:+: s.data :=
  containsAt_iff_infix s.data substr.data

end strings

namespace storage

/-- C8: `getCourseType` returns the type of the first keyword, in the order `lang`, `mellom`,
`kort`, that occurs in the lower-cased course name, and `newbie` when none occurs; the four
course names of the specification are classified long, medium, short and newbie, and a name
written with the Kelvin sign `U+212A`, whose lower case is `k`, is classified short. -/
theorem getCourseType_first_match (n : String) :
    getCourseType n =
        (if "lang".data <:+: (strings.ToLower n).data then "long"
        else if "mellom".data <:+: (strings.ToLower n).data then "medium"
        else if "kort".data <:+: (strings.ToLower n).data then "short"
        else "newbie") ∧
      getCourseType "Langdistanse" = "long" ∧
      getCourseType "Mellomdistanse" = "medium" ∧
      getCourseType "Kortdistanse" = "short" ∧
      getCourseType "Åpent løp" = "newbie" ∧
      getCourseType ⟨[Char.ofNat 0x212A, 'o', 'r', 't']⟩ = "short" := by
  refine ⟨?_, by decide, by decide, by decide, by decide, by decide⟩
  simp only [getCourseType, strings.Contains_iff_infix]

open regexp

theorem ne_of_isDigit {c x : Char} (hc : c.isDigit = true) (hx : x.isDigit = false) : c ≠ x := by
  rintro rfl
  rw [hc] at hx
  exact Bool.noConfusion hx

theorem matchAt_length_fails (c : Char) (cs : List Char) (h : c ≠ '(') :
    Regex.matchAt patternCompetitionLength (c :: cs) = none := by
  simp [Regex.matchAt, patternCompetitionLength, Regex.seq, Regex.run, h]

theorem Find_length_skip (P rest : List Char) (hP : '(' ∉ P) :
    Regex.Find patternCompetitionLength (P ++ rest) =
      Regex.Find patternCompetitionLength rest := by
  induction P with
  | nil => rfl
  | cons c cs ih =>
    have hc : c ≠ '(' := fun h => hP (by simp [h])
    have hcs : '(' ∉ cs := fun h => hP (by simp [h])
    simp only [List.cons_append, Regex.Find, matchAt_length_fails c _ hc]
    exact ih hcs

theorem Find_length_one_digit (a S B : Char) (Q : List Char) (ha : a.isDigit = true)
    (hS : S = '.' ∨ S = ',') (hB : B.isDigit = true) :
    Regex.Find patternCompetitionLength ('(' :: a :: S :: B :: ' ' :: 'k' :: 'm' :: ')' :: Q) =
      some ['(', a, S, B, ' ', 'k', 'm', ')'] := by
  rcases hS with rfl | rfl <;>
    simp [Regex.Find, Regex.matchAt, patternCompetitionLength, Regex.seq, Regex.rep, Regex.times, Regex.upTo, Regex.run,
      ha, hB]

theorem Find_length_two_digits (a1 a2 S B : Char) (Q : List Char) (ha1 : a1.isDigit = true)
    (ha2 : a2.isDigit = true) (hS : S = '.' ∨ S = ',') (hB : B.isDigit = true) :
    Regex.Find patternCompetitionLength
        ('(' :: a1 :: a2 :: S :: B :: ' ' :: 'k' :: 'm' :: ')' :: Q) =
      some ['(', a1, a2, S, B, ' ', 'k', 'm', ')'] := by
  rcases hS with rfl | rfl <;>
    simp [Regex.Find, Regex.matchAt, patternCompetitionLength, Regex.seq, Regex.rep, Regex.times, Regex.upTo, Regex.run,
      ha1, ha2, hB]

theorem Find_float_one_digit (a S B : Char) (ha : a.isDigit = true)
    (hS : S = '.' ∨ S = ',') (hB : B.isDigit = true) :
    Regex.Find patternFloat ['(', a, S, B, ' ', 'k', 'm', ')'] = some [a, S, B] := by
  rcases hS with rfl | rfl <;>
    simp [Regex.Find, Regex.matchAt, patternFloat, Regex.seq, Regex.rep, Regex.times, Regex.upTo, Regex.run, ha, hB]

theorem Find_float_two_digits (a1 a2 S B : Char) (ha1 : a1.isDigit = true)
    (ha2 : a2.isDigit = true) (hS : S = '.' ∨ S = ',') (hB : B.isDigit = true) :
    Regex.Find patternFloat ['(', a1, a2, S, B, ' ', 'k', 'm', ')'] = some [a1, a2, S, B] := by
  rcases hS with rfl | rfl <;>
    simp [Regex.Find, Regex.matchAt, patternFloat, Regex.seq, Regex.rep, Regex.times, Regex.upTo, Regex.run, ha1, ha2, hB]

open regexp


theorem ReplaceAll_comma (a S B : Char) (ha : a.isDigit = true) (hS : S = '.' ∨ S = ',')
    (hB : B.isDigit = true) : strings.ReplaceAll ⟨[a, S, B]⟩ "," "." = ⟨[a, '.', B]⟩ := by
  have h1 : a ≠ ',' := ne_of_isDigit ha (by decide)
  have h2 : B ≠ ',' := ne_of_isDigit hB (by decide)
  rcases hS with rfl | rfl <;>
    simp [strings.ReplaceAll, strings.replaceFrom, List.isPrefixOf, h1, h2, Ne.symm h1, Ne.symm h2]

theorem ReplaceAll_comma_two (a1 a2 S B : Char) (ha1 : a1.isDigit = true)
    (ha2 : a2.isDigit = true) (hS : S = '.' ∨ S = ',') (hB : B.isDigit = true) :
    strings.ReplaceAll ⟨[a1, a2, S, B]⟩ "," "." = ⟨[a1, a2, '.', B]⟩ := by
  have h1 : a1 ≠ ',' := ne_of_isDigit ha1 (by decide)
  have h2 : a2 ≠ ',' := ne_of_isDigit ha2 (by decide)
  have h3 : B ≠ ',' := ne_of_isDigit hB (by decide)
  rcases hS with rfl | rfl <;>
    simp [strings.ReplaceAll, strings.replaceFrom, List.isPrefixOf, h1, h2, h3, Ne.symm h1,
      Ne.symm h2, Ne.symm h3]

theorem scanMantissa_digit (st : strconv.floatScan) (c : Char) (cs : List Char)
    (hc : c.isDigit = true) :
    strconv.scanMantissa st (c :: cs) =
      strconv.scanMantissa { st with
        sawdigits := true
        mantissa := st.mantissa * 10 + digitValue c
        fracDigits := if st.sawdot then st.fracDigits + 1 else st.fracDigits } cs := by
  have h1 : c ≠ '_' := ne_of_isDigit hc (by decide)
  have h2 : c ≠ '.' := ne_of_isDigit hc (by decide)
  simp [strconv.scanMantissa, h1, h2, hc, digitValue]

theorem readSign_digit (c : Char) (cs : List Char) (hc : c.isDigit = true) :
    strconv.readSign (c :: cs) = (false, c :: cs) := by
  have h1 : c ≠ '+' := ne_of_isDigit hc (by decide)
  have h2 : c ≠ '-' := ne_of_isDigit hc (by decide)
  simp [strconv.readSign, h1, h2]

theorem scanMantissa_dot (m f : Nat) (sd u : Bool) (cs : List Char) :
    strconv.scanMantissa
        { mantissa := m, fracDigits := f, sawdot := false, sawdigits := sd, underscores := u }
        ('.' :: cs) =
      strconv.scanMantissa
        { mantissa := m, fracDigits := f, sawdot := true, sawdigits := sd, underscores := u }
        cs := by
  have h3 : ('.' : Char) ≠ '_' := by decide
  simp [strconv.scanMantissa, h3]

theorem scanMantissa_nil (st : strconv.floatScan) : strconv.scanMantissa st [] = (st, []) := rfl

theorem readFloat_one_digit (a B : Char) (ha : a.isDigit = true) (hB : B.isDigit = true) :
    strconv.readFloat [a, '.', B] =
      some ({ neg := false, mantissa := digitValue a * 10 + digitValue B, exp := -1 }, []) := by
  have hscan : strconv.scanMantissa
      { mantissa := 0, fracDigits := 0, sawdot := false, sawdigits := false,
        underscores := false } [a, '.', B] =
      ({ mantissa := digitValue a * 10 + digitValue B, fracDigits := 1, sawdot := true,
         sawdigits := true, underscores := false }, []) := by
    rw [scanMantissa_digit _ _ _ ha]
    simp only [Bool.false_eq_true, if_false, Nat.zero_mul, Nat.zero_add]
    rw [scanMantissa_dot, scanMantissa_digit _ _ _ hB, scanMantissa_nil]
    simp
  simp only [strconv.readFloat, readSign_digit _ _ ha, hscan]
  simp [strconv.finishFloat]

theorem readFloat_two_digits (a1 a2 B : Char) (ha1 : a1.isDigit = true)
    (ha2 : a2.isDigit = true) (hB : B.isDigit = true) :
    strconv.readFloat [a1, a2, '.', B] =
      some ({ neg := false, mantissa := (digitValue a1 * 10 + digitValue a2) * 10 + digitValue B,
              exp := -1 }, []) := by
  have hscan : strconv.scanMantissa
      { mantissa := 0, fracDigits := 0, sawdot := false, sawdigits := false,
        underscores := false } [a1, a2, '.', B] =
      ({ mantissa := (digitValue a1 * 10 + digitValue a2) * 10 + digitValue B, fracDigits := 1,
         sawdot := true, sawdigits := true, underscores := false }, []) := by
    rw [scanMantissa_digit _ _ _ ha1]
    simp only [Bool.false_eq_true, if_false, Nat.zero_mul, Nat.zero_add]
    rw [scanMantissa_digit _ _ _ ha2]
    simp only [Bool.false_eq_true, if_false]
    rw [scanMantissa_dot, scanMantissa_digit _ _ _ hB, scanMantissa_nil]
    simp
  simp only [strconv.readFloat, readSign_digit _ _ ha1, hscan]
  simp [strconv.finishFloat]

theorem ParseFloat_one_digit (a B : Char) (ha : a.isDigit = true) (hB : B.isDigit = true) :
    (strconv.ParseFloat ⟨[a, '.', B]⟩ 10).1 = (digitValue a : ℚ) + (digitValue B : ℚ) / 10 := by
  simp only [strconv.ParseFloat, readFloat_one_digit a B ha hB, strconv.decimal.value]
  simp only [Bool.false_eq_true, if_false]
  push_cast
  rw [zpow_neg_one]
  ring

theorem ParseFloat_two_digits (a1 a2 B : Char) (ha1 : a1.isDigit = true)
    (ha2 : a2.isDigit = true) (hB : B.isDigit = true) :
    (strconv.ParseFloat ⟨[a1, a2, '.', B]⟩ 10).1 =
      ((10 * digitValue a1 + digitValue a2 : Nat) : ℚ) + (digitValue B : ℚ) / 10 := by
  simp only [strconv.ParseFloat, readFloat_two_digits a1 a2 B ha1 ha2 hB, strconv.decimal.value]
  simp only [Bool.false_eq_true, if_false]
  push_cast
  rw [zpow_neg_one]
  ring

/-- C9: on a course name `P ++ "(" ++ A ++ S ++ B ++ " km)" ++ Q`, with `A` one or two decimal
digits, `S` a period or a comma, `B` one decimal digit and no `(` in `P`, `getCourseLength`
returns the decimal value `A.B`, that is `A + B / 10`. -/
theorem getCourseLength_parenthesised_decimal (P Q A : List Char) (S B : Char)
    (hP : '(' ∉ P) (hA : A.length = 1 ∨ A.length = 2) (hAd : ∀ c ∈ A, c.isDigit = true)
    (hS : S = '.' ∨ S = ',') (hB : B.isDigit = true) :
    getCourseLength ⟨P ++ ('(' :: (A ++ (S :: B :: ' ' :: 'k' :: 'm' :: ')' :: Q)))⟩ =
      (decimalValue A : ℚ) + (digitValue B : ℚ) / 10 := by
  rcases hA with hA | hA
  · obtain ⟨a, rfl⟩ := List.length_eq_one.mp hA
    have ha : a.isDigit = true := hAd a (by simp)
    simp only [getCourseLength, regexCompetitionLength, regexFloat, Find_length_skip _ _ hP,
      List.singleton_append, Find_length_one_digit a S B Q ha hS hB,
      Find_float_one_digit a S B ha hS hB]
    simp [ReplaceAll_comma a S B ha hS hB, ParseFloat_one_digit a B ha hB, decimalValue]
  · obtain ⟨a1, a2, rfl⟩ := List.length_eq_two.mp hA
    have ha1 : a1.isDigit = true := hAd a1 (by simp)
    have ha2 : a2.isDigit = true := hAd a2 (by simp)
    simp only [getCourseLength, regexCompetitionLength, regexFloat, Find_length_skip _ _ hP,
      List.cons_append, List.nil_append, Find_length_two_digits a1 a2 S B Q ha1 ha2 hS hB,
      Find_float_two_digits a1 a2 S B ha1 ha2 hS hB]
    simp [ReplaceAll_comma_two a1 a2 S B ha1 ha2 hS hB, ParseFloat_two_digits a1 a2 B ha1 ha2 hB,
      decimalValue]

theorem getCourseLength_parenthesised_decimal_witness :
    ('(' ∉ "Lang ".data ∧ ('8'.isDigit = true ∧ '4'.isDigit = true)) ∧
      getCourseLength "Lang (8,4 km)" = 84 / 10 := by
  have h := getCourseLength_parenthesised_decimal "Lang ".data [] ['8'] ',' '4' (by decide)
    (by decide) (by decide) (by decide) (by decide)
  have hA : decimalValue ['8'] = 8 := by decide
  have hB : digitValue '4' = 4 := by decide
  rw [hA, hB] at h
  refine ⟨by decide, ?_⟩
  rw [show getCourseLength "Lang (8,4 km)" = _ from h]
  norm_num

/-- C10 (failing input): the name `Lang (123 km)` contains no text matching the pattern
`\d{1,2}[.,]\d km`, yet `getCourseLength` returns 123 for it: the unescaped period of
`patternCompetitionLength` accepts the digit `2` as separator. -/
theorem getCourseLength_digit_separator :
    regexp.Regex.Find specLengthPattern "Lang (123 km)".data = none ∧
      regexp.Regex.Find regexCompetitionLength "Lang (123 km)".data = some "(123 km)".data ∧
      getCourseLength "Lang (123 km)" = 123 := by
  have h1 : regexp.Regex.Find regexCompetitionLength "Lang (123 km)".data =
      some "(123 km)".data := by decide
  have h2 : regexp.Regex.Find regexFloat "(123 km)".data = some "123".data := by decide
  have h3 : strings.ReplaceAll ⟨"123".data⟩ "," "." = "123" := by decide
  have h4 : strconv.readFloat "123".data =
      some ({ neg := false, mantissa := 123, exp := 0 }, []) := by decide
  refine ⟨by decide, h1, ?_⟩
  simp [getCourseLength, h1, h2, h3, strconv.ParseFloat, h4, strconv.decimal.value]

end storage

/-! ## Properties of the lookups of the store -/

namespace storage

theorem findCourse_eq_none_iff (courseName : String) (cs : List course) :
    findCourse courseName cs = none ↔ ∀ x ∈ cs, x.Name ≠ courseName := by
  induction cs with
  | nil => simp [findCourse]
  | cons crs rest ih =>
    by_cases h : crs.Name = courseName
    · simp [findCourse, h]
    · simp [findCourse, h, ih]

theorem findCourse_eq_some (courseName : String) (cs : List course) (crs : course)
    (h : findCourse courseName cs = some crs) :
    ∃ pre post, cs = pre ++ crs :: post ∧ crs.Name = courseName ∧
      ∀ x ∈ pre, x.Name ≠ courseName := by
  induction cs with
  | nil => simp [findCourse] at h
  | cons c0 rest ih =>
    by_cases hn : c0.Name = courseName
    · simp [findCourse, hn] at h
      subst h
      exact ⟨[], rest, rfl, hn, by simp⟩
    · simp [findCourse, hn] at h
      obtain ⟨pre, post, hcs, hname, hpre⟩ := ih h
      refine ⟨c0 :: pre, post, by simp [hcs], hname, ?_⟩
      intro x hx
      rcases List.mem_cons.mp hx with rfl | hx
      · exact hn
      · exact hpre x hx

theorem findCompetitionAndCourse_eq_none_iff (eventName courseName : String)
    (l : List competition) :
    findCompetitionAndCourse eventName courseName l = none ↔
      ∀ comp ∈ l, comp.Name = eventName → ∀ x ∈ comp.Courses, x.Name ≠ courseName := by
  induction l with
  | nil => simp [findCompetitionAndCourse]
  | cons comp rest ih =>
    by_cases hn : comp.Name = eventName
    · cases hc : findCourse courseName comp.Courses with
      | none =>
        have hall := (findCourse_eq_none_iff courseName comp.Courses).mp hc
        simp only [findCompetitionAndCourse, hn, ne_eq, not_true_eq_false, if_false, hc, ih,
          List.mem_cons, forall_eq_or_imp, true_implies]
        exact ⟨fun h => ⟨hall, h⟩, fun h => h.2⟩
      | some crs =>
        obtain ⟨pre, post, hcs, hname, _⟩ := findCourse_eq_some courseName comp.Courses crs hc
        simp only [findCompetitionAndCourse, hn, ne_eq, not_true_eq_false, if_false, hc,
          List.mem_cons, forall_eq_or_imp, true_implies]
        constructor
        · intro h
          cases h
        · rintro ⟨hall, _⟩
          exact absurd hname (hall crs (by simp [hcs]))
    · simp [findCompetitionAndCourse, hn, ih]

theorem findCompetitionAndCourse_eq_some (eventName courseName : String)
    (l : List competition) (res : competitionAndCourse)
    (h : findCompetitionAndCourse eventName courseName l = some res) :
    res.competition ∈ l ∧ res.competition.Name = eventName ∧
      findCourse courseName res.competition.Courses = some res.course := by
  induction l with
  | nil => simp [findCompetitionAndCourse] at h
  | cons comp rest ih =>
    by_cases hn : comp.Name = eventName
    · cases hc : findCourse courseName comp.Courses with
      | none =>
        simp only [findCompetitionAndCourse, hn, ne_eq, not_true_eq_false, if_false, hc] at h
        obtain ⟨h1, h2, h3⟩ := ih h
        exact ⟨List.mem_cons_of_mem _ h1, h2, h3⟩
      | some crs =>
        simp only [findCompetitionAndCourse, hn, ne_eq, not_true_eq_false, if_false, hc,
          Option.some.injEq] at h
        subst h
        exact ⟨List.mem_cons_self _ _, hn, hc⟩
    · simp only [findCompetitionAndCourse, ne_eq, hn, not_false_eq_true, if_true] at h
      obtain ⟨h1, h2, h3⟩ := ih h
      exact ⟨List.mem_cons_of_mem _ h1, h2, h3⟩

theorem mem_values_iff_lookup (m : GoMap competition) (comp : competition) :
    comp ∈ m.entries.map (fun e => e.2) ↔ ∃ k, m.lookup k = some comp := by
  constructor
  · intro h
    obtain ⟨⟨k, v⟩, hmem, hv⟩ := List.mem_map.mp h
    simp only at hv
    subst hv
    exact ⟨k, AList.mem_lookup_iff.mpr hmem⟩
  · rintro ⟨k, hk⟩
    exact List.mem_map.mpr ⟨⟨k, comp⟩, AList.mem_lookup_iff.mp hk, rfl⟩

/-- C11: `CompetitionByNames` returns the not-found error exactly when no stored competition
has the event name together with a course of the course name; when it succeeds, the returned
competition is stored, has the event name, and the returned course is the first of its courses
with the course name. -/
theorem CompetitionByNames_found_iff (c : competitionServiceImpl)
    (eventName courseName : String) :
    ((∃ msg, c.CompetitionByNames eventName courseName = Except.error msg) ↔
        ¬ ∃ k comp, c.competitions.lookup k = some comp ∧ comp.Name = eventName ∧
          ∃ crs ∈ comp.Courses, crs.Name = courseName) ∧
      (∀ res, c.CompetitionByNames eventName courseName = Except.ok res →
        (∃ k, c.competitions.lookup k = some res.competition) ∧
          res.competition.Name = eventName ∧
          ∃ pre post, res.competition.Courses = pre ++ res.course :: post ∧
            res.course.Name = courseName ∧ ∀ x ∈ pre, x.Name ≠ courseName) := by
  constructor
  · cases hf : findCompetitionAndCourse eventName courseName
        (c.competitions.entries.map (fun e => e.2)) with
    | none =>
      have hall := (findCompetitionAndCourse_eq_none_iff _ _ _).mp hf
      simp only [competitionServiceImpl.CompetitionByNames, hf, Except.error.injEq,
        exists_eq', true_iff]
      rintro ⟨k, comp, hk, hname, crs, hcrs, hcn⟩
      exact hall comp ((mem_values_iff_lookup _ _).mpr ⟨k, hk⟩) hname crs hcrs hcn
    | some res =>
      obtain ⟨hmem, hname, hcourse⟩ := findCompetitionAndCourse_eq_some _ _ _ _ hf
      obtain ⟨k, hk⟩ := (mem_values_iff_lookup _ _).mp hmem
      obtain ⟨pre, post, hcs, hcn, _⟩ := findCourse_eq_some _ _ _ hcourse
      simp only [competitionServiceImpl.CompetitionByNames, hf]
      constructor
      · rintro ⟨msg, h⟩
        cases h
      · intro hneg
        exact absurd ⟨k, res.competition, hk, hname, res.course, by simp [hcs], hcn⟩ hneg
  · intro res h
    cases hf : findCompetitionAndCourse eventName courseName
        (c.competitions.entries.map (fun e => e.2)) with
    | none => simp [competitionServiceImpl.CompetitionByNames, hf] at h
    | some r =>
      simp only [competitionServiceImpl.CompetitionByNames, hf, Except.ok.injEq] at h
      subst h
      obtain ⟨hmem, hname, hcourse⟩ := findCompetitionAndCourse_eq_some _ _ _ _ hf
      exact ⟨(mem_values_iff_lookup _ _).mp hmem, hname, findCourse_eq_some _ _ _ hcourse⟩

theorem CompetitionByNames_found_iff_witness :
    (exampleService.CompetitionByNames "Rankingløp 3" "Kort" =
        Except.ok
          { competition := getCompetition "20180101-abcd" exampleKnownEvent
            course := { ID := "20180101-abcd-short", Name := "Kort", Info := "", Length := 0,
                        CourseType := "short" } }) ∧
      (getCompetition "20180101-abcd" exampleKnownEvent).Name = "Rankingløp 3" := by
  have h : exampleService.CompetitionByNames "Rankingløp 3" "Kort" =
      Except.ok
        { competition := getCompetition "20180101-abcd" exampleKnownEvent
          course := { ID := "20180101-abcd-short", Name := "Kort", Info := "", Length := 0,
                      CourseType := "short" } } := by
    have hlen : getCourseLength "Kort" = 0 := by decide
    have htype : getCourseType "Kort" = "short" := by decide
    have htype2 : getCourseType "Lang (8,4 km)" = "long" := by decide
    simp [competitionServiceImpl.CompetitionByNames, exampleService, AList.singleton,
      findCompetitionAndCourse, findCourse, getCompetition, exampleKnownEvent, exampleEvent,
      hlen, htype, htype2]
  exact ⟨h, ((CompetitionByNames_found_iff exampleService "Rankingløp 3" "Kort").2 _ h).2.1⟩

/-- C14: `getCompetition` copies the identity and the scalar fields of the event, and builds
one course per course of the event, in order, with the same name and info; the type of each
course is one of long, medium, short, newbie and its identity is the competition identity, a
hyphen and the type. -/
theorem getCompetition_copies_event (id : String) (e : types.Event) :
    (getCompetition id e).ID = id ∧
      (getCompetition id e).Number = e.Number ∧
      (getCompetition id e).Name = e.Name ∧
      (getCompetition id e).Date = e.Date ∧
      (getCompetition id e).Info = e.Info ∧
      (getCompetition id e).URL = e.URL ∧
      (getCompetition id e).URLInvite = e.URLInvite ∧
      (getCompetition id e).URLLiveLox = e.URLLiveLox ∧
      (getCompetition id e).Place = e.Place ∧
      (getCompetition id e).Organizer = e.Organizer ∧
      (getCompetition id e).Responsible = e.Responsible ∧
      (getCompetition id e).Courses.length = e.Courses.length ∧
      (getCompetition id e).Courses.map (fun crs => crs.Name) =
        e.Courses.map (fun ec => ec.Name) ∧
      (getCompetition id e).Courses.map (fun crs => crs.Info) =
        e.Courses.map (fun ec => ec.Info) ∧
      (∀ crs ∈ (getCompetition id e).Courses,
        crs.CourseType ∈ courseTypes ∧ crs.ID = id ++ "-" ++ crs.CourseType) := by
  refine ⟨rfl, rfl, rfl, rfl, rfl, rfl, rfl, rfl, rfl, rfl, rfl, ?_, ?_, ?_, ?_⟩
  · simp [getCompetition]
  · simp [getCompetition, List.map_map, Function.comp_def]
  · simp [getCompetition, List.map_map, Function.comp_def]
  · intro crs hcrs
    simp only [getCompetition, List.mem_map] at hcrs
    obtain ⟨ec, _, rfl⟩ := hcrs
    refine ⟨?_, rfl⟩
    simp only [getCourseType, courseTypes]
    split_ifs <;> simp

theorem getCompetition_copies_event_witness :
    exampleShortCourse ∈ (getCompetition "20190517-abcd" exampleEvent).Courses ∧
      exampleShortCourse.CourseType ∈ courseTypes ∧
      exampleShortCourse.ID = "20190517-abcd" ++ "-" ++ exampleShortCourse.CourseType := by
  have hlen : getCourseLength "Kort" = 0 := by decide
  have htype : getCourseType "Kort" = "short" := by decide
  have hmem : exampleShortCourse ∈ (getCompetition "20190517-abcd" exampleEvent).Courses := by
    simp [getCompetition, exampleEvent, exampleShortCourse, hlen, htype]
  exact ⟨hmem,
    (getCompetition_copies_event "20190517-abcd" exampleEvent).2.2.2.2.2.2.2.2.2.2.2.2.2.2 _ hmem⟩

theorem syncResult_lookup_preserved (rnd : Nat → Bytes16) (st : syncState)
    (r : types.Result) (k : String) (v : competition)
    (h : st.competitions.lookup k = some v) :
    (syncResult rnd st r).competitions.lookup k = some v := by
  unfold syncResult
  cases r.Event with
  | none => exact h
  | some e =>
    simp only
    cases hl : st.competitions.lookup (makeCompetitionID e.Date (rnd st.drawn)) with
    | some _ => exact h
    | none =>
      have hne : k ≠ makeCompetitionID e.Date (rnd st.drawn) := by
        intro heq
        rw [heq, hl] at h
        cases h
      simp only [AList.lookup_insert_ne hne, h]

theorem syncResults_lookup_preserved (rnd : Nat → Bytes16) (k : String) (v : competition) :
    ∀ (rs : List types.Result) (st : syncState), st.competitions.lookup k = some v →
      (syncResults rnd st rs).competitions.lookup k = some v := by
  intro rs
  induction rs with
  | nil => intro st h; exact h
  | cons r rs ih =>
    intro st h
    rw [syncResults_cons]
    exact ih _ (syncResult_lookup_preserved rnd st r k v h)

theorem StartIteration_competitions (c : competitionServiceImpl) (fetch : types.SeasonFetch)
    (rnd : Nat → Bytes16) :
    (c.StartIteration fetch rnd).service.competitions =
      match fetch.Results with
      | none => c.competitions
      | some results =>
        (syncResults rnd { competitions := c.competitions, anyChange := false, drawn := 0 }
          results).competitions := by
  cases hres : fetch.Results with
  | none => simp [competitionServiceImpl.StartIteration, hres]
  | some rs =>
    simp only [competitionServiceImpl.StartIteration, hres, competitionServiceImpl.List]
    split <;> rfl

theorem exampleService_lookup :
    exampleService.competitions.lookup "20180101-abcd" =
      some (getCompetition "20180101-abcd" exampleKnownEvent) := by
  simp [exampleService, AList.lookup, AList.singleton, List.dlookup]

/-- C15: every competition stored before a batch is stored under the same identity, with the
same fields and courses, after the batch: the loop only adds entries. -/
theorem StartIteration_keeps_stored (c : competitionServiceImpl) (fetch : types.SeasonFetch)
    (rnd : Nat → Bytes16) (k : String) (v : competition)
    (h : c.competitions.lookup k = some v) :
    (c.StartIteration fetch rnd).service.competitions.lookup k = some v := by
  rw [StartIteration_competitions]
  cases fetch.Results with
  | none => exact h
  | some rs => exact syncResults_lookup_preserved rnd k v rs _ h

theorem StartIteration_keeps_stored_witness :
    exampleService.competitions.lookup "20180101-abcd" =
        some (getCompetition "20180101-abcd" exampleKnownEvent) ∧
      (exampleService.StartIteration { Results := some [{ Event := some exampleEvent }] }
          exampleUUIDs).service.competitions.lookup "20180101-abcd" =
        some (getCompetition "20180101-abcd" exampleKnownEvent) :=
  ⟨exampleService_lookup,
    StartIteration_keeps_stored exampleService
      { Results := some [{ Event := some exampleEvent }] } exampleUUIDs "20180101-abcd" _
      exampleService_lookup⟩

end storage

/-! ## Properties of the identities of competitions and courses -/

namespace storage

theorem String_append_left_cancel {a b c : String} (h : a ++ b = a ++ c) : b = c := by
  have hd := congrArg String.data h
  simp only [String.data_append, List.append_cancel_left_eq] at hd
  exact String.ext hd

theorem makeCompetitionID_eq_iff (dt : time.Time) (g1 g2 : Bytes16) :
    makeCompetitionID dt g1 = makeCompetitionID dt g2 ↔
      (uuid.String g1).data.take 4 = (uuid.String g2).data.take 4 := by
  rw [makeCompetitionID_eq_datePrefix_append, makeCompetitionID_eq_datePrefix_append]
  constructor
  · intro h
    exact congrArg String.data (String_append_left_cancel h)
  · intro h
    rw [h]

theorem StartIteration_single (c : competitionServiceImpl) (e : types.Event)
    (rnd : Nat → Bytes16) :
    (c.StartIteration { Results := some [{ Event := some e }] } rnd).service.competitions =
      match c.competitions.lookup (makeCompetitionID e.Date (rnd 0)) with
      | some _ => c.competitions
      | none => c.competitions.insert (makeCompetitionID e.Date (rnd 0))
          (getCompetition (makeCompetitionID e.Date (rnd 0)) e) := by
  rw [StartIteration_competitions]
  simp only [syncResults, List.foldl, syncResult]
  cases c.competitions.lookup (makeCompetitionID e.Date (rnd 0)) <;> rfl

theorem StartIteration_single_of_absent (c : competitionServiceImpl) (e : types.Event)
    (rnd : Nat → Bytes16) (h : makeCompetitionID e.Date (rnd 0) ∉ c.competitions) :
    (c.StartIteration { Results := some [{ Event := some e }] } rnd).service.competitions =
      c.competitions.insert (makeCompetitionID e.Date (rnd 0))
        (getCompetition (makeCompetitionID e.Date (rnd 0)) e) := by
  rw [StartIteration_single, AList.lookup_eq_none.mpr h]

theorem entries_length_insert_of_absent (m : GoMap competition) (k : String) (v : competition)
    (h : k ∉ m) : (m.insert k v).entries.length = m.entries.length + 1 := by
  rw [AList.insert_entries_of_neg h]
  rfl

/-- C18: the existence check of `Start` looks up the freshly generated identity. A delivery
leaves the store unchanged exactly when that identity is already stored, and two identities
for one date are equal exactly when their random suffixes coincide. So a delivery of an
event, ingested before or not, whose generated identity is not stored adds a record, and two
deliveries of one event with different unseen suffixes leave two distinct records with the
date and name of the event. -/
theorem StartIteration_reingests_event (c : competitionServiceImpl) (e : types.Event)
    (rnd1 rnd2 : Nat → Bytes16) :
    (makeCompetitionID e.Date (rnd1 0) ∉ c.competitions →
        (c.StartIteration { Results := some [{ Event := some e }] } rnd1).service.competitions =
            c.competitions.insert (makeCompetitionID e.Date (rnd1 0))
              (getCompetition (makeCompetitionID e.Date (rnd1 0)) e) ∧
          (c.StartIteration { Results := some [{ Event := some e }] }
              rnd1).service.competitions.entries.length = c.competitions.entries.length + 1) ∧
      ((c.StartIteration { Results := some [{ Event := some e }] } rnd1).service.competitions =
          c.competitions ↔ makeCompetitionID e.Date (rnd1 0) ∈ c.competitions) ∧
      (makeCompetitionID e.Date (rnd1 0) = makeCompetitionID e.Date (rnd2 0) ↔
        (uuid.String (rnd1 0)).data.take 4 = (uuid.String (rnd2 0)).data.take 4) ∧
      (makeCompetitionID e.Date (rnd1 0) ∉ c.competitions →
        makeCompetitionID e.Date (rnd2 0) ∉ c.competitions →
        (uuid.String (rnd1 0)).data.take 4 ≠ (uuid.String (rnd2 0)).data.take 4 →
          ((c.StartIteration { Results := some [{ Event := some e }] } rnd1).service.StartIteration
              { Results := some [{ Event := some e }] } rnd2).service.competitions.lookup
                (makeCompetitionID e.Date (rnd1 0)) =
              some (getCompetition (makeCompetitionID e.Date (rnd1 0)) e) ∧
            ((c.StartIteration { Results := some [{ Event := some e }] }
                rnd1).service.StartIteration
              { Results := some [{ Event := some e }] } rnd2).service.competitions.lookup
                (makeCompetitionID e.Date (rnd2 0)) =
              some (getCompetition (makeCompetitionID e.Date (rnd2 0)) e) ∧
            getCompetition (makeCompetitionID e.Date (rnd1 0)) e ≠
              getCompetition (makeCompetitionID e.Date (rnd2 0)) e ∧
            (getCompetition (makeCompetitionID e.Date (rnd1 0)) e).Date =
              (getCompetition (makeCompetitionID e.Date (rnd2 0)) e).Date ∧
            (getCompetition (makeCompetitionID e.Date (rnd1 0)) e).Name =
              (getCompetition (makeCompetitionID e.Date (rnd2 0)) e).Name ∧
            ((c.StartIteration { Results := some [{ Event := some e }] }
                rnd1).service.StartIteration
              { Results := some [{ Event := some e }] } rnd2).service.competitions.entries.length =
              c.competitions.entries.length + 2) := by
  refine ⟨?_, ?_, makeCompetitionID_eq_iff _ _ _, ?_⟩
  · intro h
    rw [StartIteration_single_of_absent c e rnd1 h]
    exact ⟨rfl, entries_length_insert_of_absent _ _ _ h⟩
  · constructor
    · intro heq
      by_contra hnot
      have hlen := entries_length_insert_of_absent c.competitions _
        (getCompetition (makeCompetitionID e.Date (rnd1 0)) e) hnot
      rw [← StartIteration_single_of_absent c e rnd1 hnot, heq] at hlen
      omega
    · intro hmem
      obtain ⟨co, hco⟩ := Option.isSome_iff_exists.mp (AList.lookup_isSome.mpr hmem)
      rw [StartIteration_single, hco]
  · intro h1 h2 hne
    have hid : makeCompetitionID e.Date (rnd2 0) ≠ makeCompetitionID e.Date (rnd1 0) :=
      fun h => hne ((makeCompetitionID_eq_iff _ _ _).mp h.symm)
    have hfirst := StartIteration_single_of_absent c e rnd1 h1
    have h2' : makeCompetitionID e.Date (rnd2 0) ∉
        (c.StartIteration { Results := some [{ Event := some e }] } rnd1).service.competitions := by
      rw [hfirst, AList.mem_insert]
      rintro (h | h)
      · exact hid h
      · exact h2 h
    have hsecond := StartIteration_single_of_absent
      (c.StartIteration { Results := some [{ Event := some e }] } rnd1).service e rnd2 h2'
    refine ⟨?_, ?_, ?_, rfl, rfl, ?_⟩
    · rw [hsecond, AList.lookup_insert_ne hid.symm, hfirst, AList.lookup_insert]
    · rw [hsecond, AList.lookup_insert]
    · intro h
      exact hid (congrArg competition.ID h).symm
    · rw [hsecond, entries_length_insert_of_absent _ _ _ h2', hfirst,
        entries_length_insert_of_absent _ _ _ h1]

theorem StartIteration_reingests_event_witness :
    exampleService.competitions.lookup "20180101-abcd" =
        some (getCompetition "20180101-abcd" exampleKnownEvent) ∧
      makeCompetitionID exampleKnownEvent.Date (exampleOtherUUIDs 0) ∉
        exampleService.competitions ∧
      (exampleService.StartIteration { Results := some [{ Event := some exampleKnownEvent }] }
          exampleOtherUUIDs).service.competitions.entries.length =
        exampleService.competitions.entries.length + 1 :=
  ⟨exampleService_lookup, by decide,
    ((StartIteration_reingests_event exampleService exampleKnownEvent exampleOtherUUIDs
      exampleUUIDs).1 (by decide)).2⟩

theorem course_ID_eq_iff_of_type (id : String) (c1 c2 : course)
    (h1 : c1.ID = id ++ "-" ++ c1.CourseType) (h2 : c2.ID = id ++ "-" ++ c2.CourseType) :
    c1.ID = c2.ID ↔ c1.CourseType = c2.CourseType := by
  rw [h1, h2]
  constructor
  · intro h
    exact String_append_left_cancel h
  · intro h
    rw [h]

theorem getCompetition_course_ID (id : String) (e : types.Event) (crs : course)
    (h : crs ∈ (getCompetition id e).Courses) : crs.ID = id ++ "-" ++ crs.CourseType := by
  simp only [getCompetition, List.mem_map] at h
  obtain ⟨ec, _, rfl⟩ := h
  rfl

/-- C20: two courses of `getCompetition(id, e)` have equal identities exactly when they have
equal types, so the course identities of a competition are pairwise distinct exactly when the
course types are; an event with two courses whose names both contain `lang` gives two distinct
courses with one identity. -/
theorem getCompetition_course_ID_eq_iff (id : String) (e : types.Event) :
    (∀ c1 ∈ (getCompetition id e).Courses, ∀ c2 ∈ (getCompetition id e).Courses,
        (c1.ID = c2.ID ↔ c1.CourseType = c2.CourseType)) ∧
      (((getCompetition id e).Courses.map (fun crs => crs.ID)).Nodup ↔
        ((getCompetition id e).Courses.map (fun crs => crs.CourseType)).Nodup) ∧
      (∃ c1 ∈ (getCompetition id exampleTwoLongEvent).Courses,
        ∃ c2 ∈ (getCompetition id exampleTwoLongEvent).Courses, c1 ≠ c2 ∧ c1.ID = c2.ID) := by
  refine ⟨?_, ?_, ?_⟩
  · intro c1 h1 c2 h2
    exact course_ID_eq_iff_of_type id c1 c2 (getCompetition_course_ID id e c1 h1)
      (getCompetition_course_ID id e c2 h2)
  · have hmap : (getCompetition id e).Courses.map (fun crs => crs.ID) =
        ((getCompetition id e).Courses.map (fun crs => crs.CourseType)).map
          (fun t => id ++ "-" ++ t) := by
      rw [List.map_map]
      exact List.map_congr_left (fun crs h => getCompetition_course_ID id e crs h)
    rw [hmap]
    exact List.nodup_map_iff (fun a b h => String_append_left_cancel h)
  · have htA : getCourseType "Lang A" = "long" := by decide
    have htB : getCourseType "Lang B" = "long" := by decide
    refine ⟨{ ID := id ++ "-" ++ "long", Name := "Lang A", Info := "",
              Length := getCourseLength "Lang A", CourseType := "long" }, ?_,
            { ID := id ++ "-" ++ "long", Name := "Lang B", Info := "",
              Length := getCourseLength "Lang B", CourseType := "long" }, ?_, ?_, rfl⟩
    · simp [getCompetition, exampleTwoLongEvent, htA]
    · simp [getCompetition, exampleTwoLongEvent, htB]
    · intro h
      have hn := congrArg course.Name h
      simp at hn

theorem getCompetition_course_ID_eq_iff_witness :
    (exampleShortCourse ∈ (getCompetition "20190517-abcd" exampleEvent).Courses ∧
        exampleLongCourse ∈ (getCompetition "20190517-abcd" exampleEvent).Courses) ∧
      (exampleShortCourse.ID = exampleLongCourse.ID ↔
        exampleShortCourse.CourseType = exampleLongCourse.CourseType) := by
  have hlen : getCourseLength "Kort" = 0 := by decide
  have htype : getCourseType "Kort" = "short" := by decide
  have htype2 : getCourseType "Lang (8,4 km)" = "long" := by decide
  have hmem : exampleShortCourse ∈ (getCompetition "20190517-abcd" exampleEvent).Courses := by
    simp [getCompetition, exampleEvent, exampleShortCourse, hlen, htype]
  have hmem2 : exampleLongCourse ∈ (getCompetition "20190517-abcd" exampleEvent).Courses := by
    simp [getCompetition, exampleEvent, exampleLongCourse, htype2]
  exact ⟨⟨hmem, hmem2⟩,
    (getCompetition_course_ID_eq_iff "20190517-abcd" exampleEvent).1 _ hmem _ hmem2⟩

end storage

/-! ## Properties of the fingerprint as a key -/

namespace strings

theorem TrimSpace_of_no_space (s : String) (h : ∀ c ∈ s.data, unicode.IsSpace c = false) :
    TrimSpace s = s := by
  have h1 : s.data.dropWhile unicode.IsSpace = s.data := by
    cases hs : s.data with
    | nil => rfl
    | cons c cs =>
      have hc : unicode.IsSpace c = false := h c (by simp [hs])
      simp [List.dropWhile_cons, hc]
  have h2 : s.data.rdropWhile (fun c => unicode.IsSpace c) = s.data := by
    rw [List.rdropWhile_eq_self_iff]
    intro hl
    simp [h _ (List.getLast_mem hl)]
  simp only [TrimSpace, h1, h2]

theorem ToLower_no_space (s : String) (h : ∀ c ∈ s.data, unicode.IsSpace c = false) :
    ∀ c ∈ (ToLower s).data, unicode.IsSpace c = false := by
  intro c hc
  simp only [ToLower, List.mem_map] at hc
  obtain ⟨x, hx, rfl⟩ := hc
  rw [unicode.IsSpace_ToLower]
  exact h x hx

theorem ToLower_append (a b : String) : ToLower (a ++ b) = ToLower a ++ ToLower b := by
  apply String.ext
  simp [ToLower, String.data_append]

theorem normalize_of_no_space (s : String) (h : ∀ c ∈ s.data, unicode.IsSpace c = false) :
    TrimSpace (ToLower s) = ToLower s :=
  TrimSpace_of_no_space _ (ToLower_no_space s h)

end strings

namespace athletes

theorem sha_concat_of_no_space (a b c : String)
    (ha : ∀ x ∈ a.data, unicode.IsSpace x = false)
    (hb : ∀ x ∈ b.data, unicode.IsSpace x = false)
    (hc : ∀ x ∈ c.data, unicode.IsSpace x = false) :
    sha (a ++ b) c = sha a (b ++ c) := by
  have hab : ∀ x ∈ (a ++ b).data, unicode.IsSpace x = false := by
    intro x hx
    rw [String.data_append, List.mem_append] at hx
    exact hx.elim (ha x) (hb x)
  have hbc : ∀ x ∈ (b ++ c).data, unicode.IsSpace x = false := by
    intro x hx
    rw [String.data_append, List.mem_append] at hx
    exact hx.elim (hb x) (hc x)
  have e1 : strings.TrimSpace (strings.ToLower (a ++ b)) =
      strings.ToLower a ++ strings.ToLower b := by
    rw [strings.normalize_of_no_space _ hab, strings.ToLower_append]
  have e2 : strings.TrimSpace (strings.ToLower (b ++ c)) =
      strings.ToLower b ++ strings.ToLower c := by
    rw [strings.normalize_of_no_space _ hbc, strings.ToLower_append]
  simp only [sha, e1, e2, strings.normalize_of_no_space _ ha,
    strings.normalize_of_no_space _ hc, String.append_assoc]

theorem competitor_stores_returned (c : cache) (name club : String) (rnd : Bytes16) :
    (c.competitor name club rnd).2.competitorsBySHA.lookup (sha name club) =
      some (c.competitor name club rnd).1.1 := by
  cases h : c.competitorsBySHA.lookup (sha name club) with
  | none => simp [cache.competitor, h, AList.lookup_insert]
  | some a => simp [cache.competitor, h]

theorem competitor_of_lookup_some (c : cache) (name club : String) (rnd : Bytes16)
    (a : athleteWithID) (h : c.competitorsBySHA.lookup (sha name club) = some a) :
    c.competitor name club rnd = ((a, true), c) := by
  simp [cache.competitor, h]

/-- C19: the fingerprint concatenates the normalised name and club without separator: for
strings without white space `sha(a + b, c) = sha(a, b + c)`. The distinct pairs `("ab", "c")`
and `("a", "bc")` get one fingerprint, and `competitor("a", "bc")` after
`competitor("ab", "c")` returns the record of the first call with `existed = true`. -/
theorem sha_without_separator (c : cache) (rnd rnd2 : Bytes16) :
    (∀ a b d : String, (∀ x ∈ a.data, unicode.IsSpace x = false) →
        (∀ x ∈ b.data, unicode.IsSpace x = false) →
        (∀ x ∈ d.data, unicode.IsSpace x = false) → sha (a ++ b) d = sha a (b ++ d)) ∧
      (("ab", "c") : String × String) ≠ ("a", "bc") ∧
      sha "ab" "c" = sha "a" "bc" ∧
      (c.competitor "ab" "c" rnd).2.competitor "a" "bc" rnd2 =
        (((c.competitor "ab" "c" rnd).1.1, true), (c.competitor "ab" "c" rnd).2) ∧
      ((c.competitor "ab" "c" rnd).2.competitor "a" "bc" rnd2).1.1.ID =
        (c.competitor "ab" "c" rnd).1.1.ID := by
  have hsha : sha "ab" "c" = sha "a" "bc" :=
    sha_concat_of_no_space "a" "b" "c" (by decide) (by decide) (by decide)
  have hsecond : (c.competitor "ab" "c" rnd).2.competitor "a" "bc" rnd2 =
      (((c.competitor "ab" "c" rnd).1.1, true), (c.competitor "ab" "c" rnd).2) := by
    apply competitor_of_lookup_some
    rw [← hsha]
    exact competitor_stores_returned c "ab" "c" rnd
  refine ⟨sha_concat_of_no_space, by decide, hsha, hsecond, ?_⟩
  rw [hsecond]

theorem sha_without_separator_witness :
    ((∀ x ∈ "Łukasz".data, unicode.IsSpace x = false) ∧
        (∀ x ∈ "Żak".data, unicode.IsSpace x = false) ∧
        (∀ x ∈ "Club".data, unicode.IsSpace x = false)) ∧
      sha ("Łukasz" ++ "Żak") "Club" = sha "Łukasz" ("Żak" ++ "Club") :=
  ⟨⟨by decide, by decide, by decide⟩,
    (sha_without_separator emptyCache (fun _ => 7) (fun _ => 9)).1 "Łukasz" "Żak" "Club"
      (by decide) (by decide) (by decide)⟩

end athletes

/-! ## The text of a competition identity -/

namespace fmt

theorem toDigitsCore_succ (fuel n : Nat) (ds : List Char) :
    Nat.toDigitsCore 10 (fuel + 1) n ds =
      if n / 10 = 0 then Nat.digitChar (n % 10) :: ds
      else Nat.toDigitsCore 10 fuel (n / 10) (Nat.digitChar (n % 10) :: ds) := rfl

theorem toDigits_one (n : Nat) (h : n < 10) : Nat.toDigits 10 n = [Nat.digitChar n] := by
  have h0 : n / 10 = 0 := by omega
  have h1 : n % 10 = n := by omega
  simp [Nat.toDigits, toDigitsCore_succ, h0, h1]

theorem toDigits_two (n : Nat) (h1 : 10 ≤ n) (h2 : n < 100) :
    Nat.toDigits 10 n = [Nat.digitChar (n / 10), Nat.digitChar (n % 10)] := by
  have hf : n + 1 = (n - 1) + 1 + 1 := by omega
  have e0 : ¬ n / 10 = 0 := by omega
  have e1 : n / 10 / 10 = 0 := by omega
  have e2 : n / 10 % 10 = n / 10 := by omega
  rw [Nat.toDigits, hf]
  simp [toDigitsCore_succ, e0, e1, e2]

theorem toDigits_four (n : Nat) (h1 : 1000 ≤ n) (h2 : n < 10000) :
    Nat.toDigits 10 n =
      [Nat.digitChar (n / 1000), Nat.digitChar (n / 100 % 10), Nat.digitChar (n / 10 % 10),
        Nat.digitChar (n % 10)] := by
  have hf : n + 1 = (n - 3) + 1 + 1 + 1 + 1 := by omega
  have e0 : ¬ n / 10 = 0 := by omega
  have e1 : ¬ n / 10 / 10 = 0 := by omega
  have e2 : ¬ n / 10 / 10 / 10 = 0 := by omega
  have e3 : n / 10 / 10 / 10 / 10 = 0 := by omega
  have e4 : n / 10 / 10 / 10 % 10 = n / 1000 := by omega
  have e5 : n / 10 / 10 % 10 = n / 100 % 10 := by omega
  rw [Nat.toDigits, hf]
  simp [toDigitsCore_succ, e0, e1, e2, e3, e4, e5]

theorem isDigit_digitChar (d : Nat) (h : d < 10) : (Nat.digitChar d).isDigit = true := by
  interval_cases d <;> decide

theorem digitValue_digitChar (d : Nat) (h : d < 10) :
    storage.digitValue (Nat.digitChar d) = d := by
  interval_cases d <;> decide

theorem isLowerHex_digitChar (d : Nat) (h : d < 16) :
    storage.isLowerHex (Nat.digitChar d) = true := by
  interval_cases d <;> decide

/-- The text of `%d` for a year of four digits. -/
theorem d_four_digits (y : Int) (h1 : 1000 ≤ y) (h2 : y ≤ 9999) :
    ∃ Y : List Char, (d y).data = Y ∧ Y.length = 4 ∧ (∀ c ∈ Y, c.isDigit = true) ∧
      (storage.decimalValue Y : Int) = y := by
  obtain ⟨n, rfl⟩ := Int.eq_ofNat_of_zero_le (by omega : (0 : Int) ≤ y)
  have hn1 : 1000 ≤ n := by omega
  have hn2 : n < 10000 := by omega
  have hd : (d (n : Int)).data = Nat.toDigits 10 n := rfl
  refine ⟨_, hd, ?_, ?_, ?_⟩
  · simp [toDigits_four n hn1 hn2]
  · intro c hc
    rw [toDigits_four n hn1 hn2] at hc
    simp only [List.mem_cons, List.mem_singleton, List.not_mem_nil, or_false] at hc
    rcases hc with rfl | rfl | rfl | rfl <;> apply isDigit_digitChar <;> omega
  · rw [toDigits_four n hn1 hn2]
    simp only [storage.decimalValue, List.foldl]
    rw [digitValue_digitChar _ (by omega : n / 1000 < 10),
      digitValue_digitChar _ (by omega : n / 100 % 10 < 10),
      digitValue_digitChar _ (by omega : n / 10 % 10 < 10),
      digitValue_digitChar _ (by omega : n % 10 < 10)]
    norm_cast
    omega

/-- The text of `%02d` for a number below 100. -/
theorem d02_two_digits (n : Nat) (h : n < 100) :
    ∃ M : List Char, (d02 n).data = M ∧ M.length = 2 ∧ (∀ c ∈ M, c.isDigit = true) ∧
      storage.decimalValue M = n := by
  by_cases h10 : n < 10
  · have hd : (d02 n).data = ['0', Nat.digitChar n] := by
      have : toString n = ⟨Nat.toDigits 10 n⟩ := rfl
      simp [d02, h10, this, toDigits_one n h10, String.data_append]
    refine ⟨_, hd, rfl, ?_, ?_⟩
    · intro c hc
      simp only [List.mem_cons, List.mem_singleton, List.not_mem_nil, or_false] at hc
      rcases hc with rfl | rfl
      · decide
      · exact isDigit_digitChar n h10
    · simp only [storage.decimalValue, List.foldl]
      rw [digitValue_digitChar n h10]
      have : storage.digitValue '0' = 0 := by decide
      omega
  · have hd : (d02 n).data = [Nat.digitChar (n / 10), Nat.digitChar (n % 10)] := by
      have : toString n = ⟨Nat.toDigits 10 n⟩ := rfl
      simp [d02, h10, this, toDigits_two n (by omega) h]
    refine ⟨_, hd, rfl, ?_, ?_⟩
    · intro c hc
      simp only [List.mem_cons, List.mem_singleton, List.not_mem_nil, or_false] at hc
      rcases hc with rfl | rfl <;> apply isDigit_digitChar <;> omega
    · simp only [storage.decimalValue, List.foldl]
      rw [digitValue_digitChar _ (by omega : n / 10 < 10),
        digitValue_digitChar _ (by omega : n % 10 < 10)]
      omega

end fmt

namespace storage

/-- The first four characters of the text of a UUID are lower-case hexadecimal digits. -/
theorem uuid_take_four (g : Bytes16) :
    ((uuid.String g).data.take 4).length = 4 ∧
      ∀ c ∈ (uuid.String g).data.take 4, isLowerHex c = true := by
  have ht : (uuid.String g).data.take 4 =
      [Nat.digitChar ((g 0).val / 16), Nat.digitChar ((g 0).val % 16),
        Nat.digitChar ((g 1).val / 16), Nat.digitChar ((g 1).val % 16)] := by
    simp [uuid.String, fmt.hexBytes, fmt.hexByte, String.data_append]
  rw [ht]
  refine ⟨rfl, ?_⟩
  intro c hc
  simp only [List.mem_cons, List.mem_singleton, List.not_mem_nil, or_false] at hc
  have h0 := (g 0).isLt
  have h1 := (g 1).isLt
  rcases hc with rfl | rfl | rfl | rfl <;> apply fmt.isLowerHex_digitChar <;> omega

/-- C13 (amended): for every date whose year is between 1000 and 9999 and every UUID,
`makeCompetitionID` returns 13 characters: the year on four decimal digits, the month and the
day on two decimal digits each, a hyphen, and four lower-case hexadecimal digits. -/
theorem makeCompetitionID_format (dt : time.Time) (g : Bytes16)
    (hy : 1000 ≤ dt.Year ∧ dt.Year ≤ 9999) (hm : 1 ≤ dt.Month ∧ dt.Month ≤ 12)
    (hd : 1 ≤ dt.Day ∧ dt.Day ≤ 31) :
    ∃ Y M D X : List Char,
      (makeCompetitionID dt g).data = Y ++ M ++ D ++ '-' :: X ∧
        (Y.length = 4 ∧ (∀ c ∈ Y, c.isDigit = true) ∧ (decimalValue Y : Int) = dt.Year) ∧
        (M.length = 2 ∧ (∀ c ∈ M, c.isDigit = true) ∧ decimalValue M = dt.Month) ∧
        (D.length = 2 ∧ (∀ c ∈ D, c.isDigit = true) ∧ decimalValue D = dt.Day) ∧
        (X.length = 4 ∧ ∀ c ∈ X, isLowerHex c = true) ∧
        (makeCompetitionID dt g).length = 13 := by
  obtain ⟨Y, hY, hYl, hYd, hYv⟩ := fmt.d_four_digits dt.Year hy.1 hy.2
  obtain ⟨M, hM, hMl, hMd, hMv⟩ := fmt.d02_two_digits dt.Month (by omega)
  obtain ⟨D, hD, hDl, hDd, hDv⟩ := fmt.d02_two_digits dt.Day (by omega)
  obtain ⟨hXl, hXh⟩ := uuid_take_four g
  have hdata : (makeCompetitionID dt g).data =
      Y ++ M ++ D ++ '-' :: (uuid.String g).data.take 4 := by
    simp [makeCompetitionID, String.data_append, hY, hM, hD]
  refine ⟨Y, M, D, (uuid.String g).data.take 4, hdata, ⟨hYl, hYd, hYv⟩, ⟨hMl, hMd, hMv⟩,
    ⟨hDl, hDd, hDv⟩, ⟨hXl, hXh⟩, ?_⟩
  rw [String.length, hdata]
  simp only [List.length_append, List.length_cons, hYl, hMl, hDl, hXl]

theorem makeCompetitionID_format_witness :
    (makeCompetitionID { Year := 2019, Month := 5, Day := 17 } (exampleUUIDs 0)).length = 13 ∧
      makeCompetitionID { Year := 2019, Month := 5, Day := 17 } (exampleUUIDs 0) =
        "20190517-abcd" := by
  obtain ⟨Y, M, D, X, _, _, _, _, _, hlen⟩ :=
    makeCompetitionID_format { Year := 2019, Month := 5, Day := 17 } (exampleUUIDs 0)
      (by decide) (by decide) (by decide)
  exact ⟨hlen, by decide⟩

/-- C13 (counterexample): for the date 1 January of the year 1, the zero value of `time.Time`,
`makeCompetitionID` returns the ten characters `10101-abcd`. -/
theorem makeCompetitionID_year_one :
    makeCompetitionID { Year := 1, Month := 1, Day := 1 } (exampleUUIDs 0) = "10101-abcd" ∧
      (makeCompetitionID { Year := 1, Month := 1, Day := 1 } (exampleUUIDs 0)).length ≠ 13 := by
  decide

end storage

/-! ## The season filter -/

namespace utf8

theorem encodeRune_of_ascii (c : Char) (h : c.toNat < 128) : encodeRune c = [c.toNat] := by
  unfold encodeRune
  exact if_pos h

theorem encodeRune_of_not_ascii (c : Char) (h : ¬ c.toNat < 128) :
    ∃ b rest, encodeRune c = b :: rest ∧ 128 ≤ b := by
  unfold encodeRune
  simp only [h, if_false]
  split_ifs
  · exact ⟨_, _, rfl, by omega⟩
  · exact ⟨_, _, rfl, by omega⟩
  · exact ⟨_, _, rfl, by omega⟩

theorem encodeRune_length_pos (c : Char) : 1 ≤ (encodeRune c).length := by
  unfold encodeRune
  simp only []
  split_ifs <;> simp

theorem length_le_bytes (l : List Char) : l.length ≤ (l.flatMap encodeRune).length := by
  induction l with
  | nil => simp
  | cons c cs ih =>
    have := encodeRune_length_pos c
    simp only [List.flatMap_cons, List.length_append, List.length_cons]
    omega

theorem bytes_of_ascii (l : List Char) (h : ∀ c ∈ l, c.toNat < 128) :
    l.flatMap encodeRune = l.map Char.toNat := by
  induction l with
  | nil => rfl
  | cons c cs ih =>
    rw [List.flatMap_cons, encodeRune_of_ascii c (h c (by simp)),
      ih (fun x hx => h x (by simp [hx]))]
    rfl

theorem toNat_injective {a b : Char} (h : a.toNat = b.toNat) : a = b := by
  rw [← Char.ofNat_toNat a, ← Char.ofNat_toNat b, h]

/-- A text of ASCII characters starts the bytes of a string exactly when it starts its
characters. -/
theorem bytes_prefix_iff (s : List Char) (hs : ∀ c ∈ s, c.toNat < 128) :
    ∀ k : List Char, (s.flatMap encodeRune <+: k.flatMap encodeRune ↔ s <+: k) := by
  induction s with
  | nil => intro k; simp
  | cons a s ih =>
    intro k
    have ha : a.toNat < 128 := hs a (by simp)
    have hs' : ∀ c ∈ s, c.toNat < 128 := fun x hx => hs x (by simp [hx])
    cases k with
    | nil => simp [encodeRune_of_ascii a ha]
    | cons c k =>
      rw [List.flatMap_cons, List.flatMap_cons, encodeRune_of_ascii a ha]
      by_cases hc : c.toNat < 128
      · rw [encodeRune_of_ascii c hc]
        simp only [List.singleton_append, List.cons_prefix_cons, ih hs' k]
        constructor
        · rintro ⟨h1, h2⟩
          exact ⟨toNat_injective h1, h2⟩
        · rintro ⟨h1, h2⟩
          exact ⟨by rw [h1], h2⟩
      · obtain ⟨b, rest, hb, hb128⟩ := encodeRune_of_not_ascii c hc
        rw [hb]
        simp only [List.singleton_append, List.cons_append, List.cons_prefix_cons]
        constructor
        · rintro ⟨h1, _⟩
          omega
        · rintro ⟨h1, _⟩
          rw [h1] at ha
          exact absurd ha hc

end utf8

namespace fmt

theorem digitChar_ascii (m : Nat) (h : m < 10) : (Nat.digitChar m).toNat < 128 := by
  interval_cases m <;> decide

theorem toDigitsCore_ascii (fuel : Nat) :
    ∀ (n : Nat) (ds : List Char), (∀ c ∈ ds, c.toNat < 128) →
      ∀ c ∈ Nat.toDigitsCore 10 fuel n ds, c.toNat < 128 := by
  induction fuel with
  | zero => intro n ds h c hc; exact h c hc
  | succ fuel ih =>
    intro n ds h c hc
    rw [toDigitsCore_succ] at hc
    have hcons : ∀ x ∈ Nat.digitChar (n % 10) :: ds, x.toNat < 128 := by
      intro x hx
      rcases List.mem_cons.mp hx with rfl | hx
      · exact digitChar_ascii _ (Nat.mod_lt _ (by decide))
      · exact h x hx
    split_ifs at hc
    · exact hcons c hc
    · exact ih _ _ hcons c hc

theorem repr_ascii (n : Nat) : ∀ c ∈ (Nat.repr n).data, c.toNat < 128 :=
  toDigitsCore_ascii _ _ _ (by simp)

/-- The text of `%d` holds ASCII characters only. -/
theorem d_ascii (y : Int) : ∀ c ∈ (d y).data, c.toNat < 128 := by
  cases y with
  | ofNat n => exact repr_ascii n
  | negSucc n =>
    intro c hc
    have hd : (d (Int.negSucc n)).data = '-' :: (Nat.repr (n + 1)).data := rfl
    rw [hd] at hc
    rcases List.mem_cons.mp hc with rfl | hc
    · decide
    · exact repr_ascii _ c hc

end fmt

namespace storage

theorem take_four_eq_iff (s k : String) (hs : ∀ c ∈ s.data, c.toNat < 128)
    (hlen : s.length = 4) :
    (utf8.bytes k).take 4 = utf8.bytes s ↔ s.data <+: k.data := by
  have hb : (utf8.bytes s).length = 4 := by
    rw [utf8.bytes, utf8.bytes_of_ascii _ hs, List.length_map]
    exact hlen
  rw [← utf8.bytes_prefix_iff s.data hs k.data, List.prefix_iff_eq_take]
  show _ ↔ utf8.bytes s = List.take (utf8.bytes s).length (utf8.bytes k)
  rw [hb]
  exact eq_comm

theorem take_four_ne (s k : String) (hs : ∀ c ∈ s.data, c.toNat < 128) (hlen : s.length ≠ 4)
    (hk : 4 ≤ (utf8.bytes k).length) : (utf8.bytes k).take 4 ≠ utf8.bytes s := by
  intro h
  have h1 := congrArg List.length h
  rw [List.length_take, utf8.bytes, utf8.bytes, utf8.bytes_of_ascii _ hs, List.length_map] at h1
  apply hlen
  have : s.length = s.data.length := rfl
  rw [utf8.bytes] at hk
  omega

theorem seasonLoop_of_four (s : String) (hs : ∀ c ∈ s.data, c.toNat < 128)
    (hlen : s.length = 4) :
    ∀ (entries : List (Sigma (fun _ : String => competition))) (result : List competition),
      (∀ e ∈ entries, 4 ≤ e.1.length) →
      seasonLoop s entries result =
        some (result ++
          (entries.filter (fun e => decide (s.data <+: e.1.data))).map (fun e => e.2)) := by
  intro entries
  induction entries with
  | nil => intro result _; simp [seasonLoop]
  | cons e rest ih =>
    intro result hkeys
    have he : 4 ≤ (utf8.bytes e.1).length :=
      le_trans (hkeys e (by simp)) (utf8.length_le_bytes e.1.data)
    have hrest : ∀ x ∈ rest, 4 ≤ x.1.length := fun x hx => hkeys x (by simp [hx])
    have hnot : ¬ (utf8.bytes e.1).length < 4 := by omega
    by_cases hp : s.data <+: e.1.data
    · have ht := (take_four_eq_iff s e.1 hs hlen).mpr hp
      simp only [seasonLoop, hnot, if_false, ht, if_true, ih _ hrest, List.filter_cons, hp,
        decide_True, List.map_cons, List.append_assoc, List.singleton_append]
    · have ht : ¬ (utf8.bytes e.1).take 4 = utf8.bytes s :=
        fun h => hp ((take_four_eq_iff s e.1 hs hlen).mp h)
      simp only [seasonLoop, hnot, if_false, ht, ih _ hrest, List.filter_cons, hp,
        decide_False, Bool.false_eq_true]

theorem seasonLoop_of_not_four (s : String) (hs : ∀ c ∈ s.data, c.toNat < 128)
    (hlen : s.length ≠ 4) :
    ∀ (entries : List (Sigma (fun _ : String => competition))) (result : List competition),
      (∀ e ∈ entries, 4 ≤ e.1.length) → seasonLoop s entries result = some result := by
  intro entries
  induction entries with
  | nil => intro result _; simp [seasonLoop]
  | cons e rest ih =>
    intro result hkeys
    have he : 4 ≤ (utf8.bytes e.1).length :=
      le_trans (hkeys e (by simp)) (utf8.length_le_bytes e.1.data)
    have hrest : ∀ x ∈ rest, 4 ≤ x.1.length := fun x hx => hkeys x (by simp [hx])
    have hnot : ¬ (utf8.bytes e.1).length < 4 := by omega
    have ht := take_four_ne s e.1 hs hlen he
    simp only [seasonLoop, hnot, if_false, ht, ih _ hrest]

/-- C12 (amended): on a store whose identities all have at least four characters, for a year
whose decimal text has exactly four characters `CompetitionsForSeason` returns exactly the
stored competitions whose identity starts with that text (each of them, and nothing else); for
any other year it returns no competition. -/
theorem CompetitionsForSeason_four_characters (c : competitionServiceImpl) (y : Int)
    (hkeys : ∀ k ∈ c.competitions.keys, 4 ≤ k.length) :
    ((fmt.d y).length = 4 →
        c.CompetitionsForSeason y =
            some ((c.competitions.entries.filter
              (fun e => decide ((fmt.d y).data <+: e.1.data))).map (fun e => e.2)) ∧
          ∃ l, c.CompetitionsForSeason y = some l ∧
            ∀ comp, comp ∈ l ↔
              ∃ k, c.competitions.lookup k = some comp ∧ (fmt.d y).data <+: k.data) ∧
      ((fmt.d y).length ≠ 4 → c.CompetitionsForSeason y = some []) := by
  have hent : ∀ e ∈ c.competitions.entries, 4 ≤ e.1.length := by
    intro e he
    exact hkeys e.1 (List.mem_keys_of_mem he)
  constructor
  · intro hlen
    have hres := seasonLoop_of_four (fmt.d y) (fmt.d_ascii y) hlen c.competitions.entries []
      hent
    rw [List.nil_append] at hres
    refine ⟨hres, _, hres, ?_⟩
    intro comp
    simp only [List.mem_map, List.mem_filter, decide_eq_true_eq]
    constructor
    · rintro ⟨⟨k, v⟩, ⟨hmem, hp⟩, rfl⟩
      exact ⟨k, AList.mem_lookup_iff.mpr hmem, hp⟩
    · rintro ⟨k, hk, hp⟩
      exact ⟨⟨k, comp⟩, ⟨AList.mem_lookup_iff.mp hk, hp⟩, rfl⟩
  · intro hlen
    exact seasonLoop_of_not_four (fmt.d y) (fmt.d_ascii y) hlen c.competitions.entries [] hent

theorem CompetitionsForSeason_four_characters_witness :
    (∀ k ∈ exampleService.competitions.keys, 4 ≤ k.length) ∧ (fmt.d 2018).length = 4 ∧
      exampleService.CompetitionsForSeason 2018 =
        some [getCompetition "20180101-abcd" exampleKnownEvent] := by
  have h := ((CompetitionsForSeason_four_characters exampleService 2018 (by decide)).1
    (by decide)).1
  have hp : (fmt.d 2018).data <+: "20180101-abcd".data := by decide
  refine ⟨by decide, by decide, ?_⟩
  rw [h]
  simp [exampleService, AList.singleton, List.filter, hp]

/-- C12 (counterexample): the store holds a competition whose identity `20180101-abcd` starts
with `201`, the decimal text of the year 201, and `CompetitionsForSeason(201)` returns no
competition. -/
theorem CompetitionsForSeason_short_year :
    (∀ k ∈ exampleService.competitions.keys, 4 ≤ k.length) ∧
      (∃ k comp, exampleService.competitions.lookup k = some comp ∧
        (fmt.d 201).data <+: k.data) ∧
      exampleService.CompetitionsForSeason 201 = some [] := by
  refine ⟨by decide, ⟨"20180101-abcd", _, exampleService_lookup, by decide⟩, ?_⟩
  decide

end storage

/-! ## Properties of the bulk load of the athlete cache -/

namespace athletes

theorem loadBlob_ok (st : loadState) (a : athleteWithID) :
    loadBlob st (Except.ok a) =
      { st with sha := st.sha.insert a.SHA a, guid := st.guid.insert a.ID a } := by
  simp [loadBlob, AList.lookup_insert]

theorem loadBlob_error (st : loadState) (err : String) :
    loadBlob st (Except.error err) = { st with errors := st.errors ++ [err] } := rfl

theorem foldl_loadBlob_cons (st : loadState) (b : blob) (bs : List blob) :
    (b :: bs).foldl loadBlob st = bs.foldl loadBlob (loadBlob st b) := rfl

/-- The maps built by the loop depend on the well-formed blobs only. -/
theorem load_maps_wellFormed :
    ∀ (blobs : List blob) (st st2 : loadState), st.sha = st2.sha → st.guid = st2.guid →
      (blobs.foldl loadBlob st).sha = ((wellFormed blobs).foldl loadBlob st2).sha ∧
        (blobs.foldl loadBlob st).guid = ((wellFormed blobs).foldl loadBlob st2).guid := by
  intro blobs
  induction blobs with
  | nil => intro st st2 h1 h2; exact ⟨h1, h2⟩
  | cons b bs ih =>
    intro st st2 h1 h2
    cases b with
    | error err =>
      have hw : wellFormed (Except.error err :: bs) = wellFormed bs := by simp [wellFormed]
      rw [hw, foldl_loadBlob_cons]
      exact ih _ _ h1 h2
    | ok a =>
      have hw : wellFormed (Except.ok a :: bs) = Except.ok a :: wellFormed bs := by
        simp [wellFormed]
      rw [hw, foldl_loadBlob_cons, foldl_loadBlob_cons]
      apply ih
      · simp [loadBlob_ok, h1]
      · simp [loadBlob_ok, h2]

/-- A key stored by the loop stays stored. -/
theorem load_keys_mono :
    ∀ (blobs : List blob) (st : loadState) (k : String),
      (k ∈ st.sha → k ∈ (blobs.foldl loadBlob st).sha) ∧
        (k ∈ st.guid → k ∈ (blobs.foldl loadBlob st).guid) := by
  intro blobs
  induction blobs with
  | nil => intro st k; exact ⟨id, id⟩
  | cons b bs ih =>
    intro st k
    rw [foldl_loadBlob_cons]
    cases b with
    | error err => exact ih (loadBlob st (Except.error err)) k
    | ok a =>
      constructor
      · intro h
        exact (ih _ k).1 (by simp [loadBlob_ok, AList.mem_insert, h])
      · intro h
        exact (ih _ k).2 (by simp [loadBlob_ok, AList.mem_insert, h])

/-- The keys of every well-formed blob are stored by the loop. -/
theorem load_keys_of_record :
    ∀ (blobs : List blob) (st : loadState) (a : athleteWithID), a ∈ recordsOf blobs →
      a.SHA ∈ (blobs.foldl loadBlob st).sha ∧ a.ID ∈ (blobs.foldl loadBlob st).guid := by
  intro blobs
  induction blobs with
  | nil => intro st a h; simp [recordsOf] at h
  | cons b bs ih =>
    intro st a h
    rw [foldl_loadBlob_cons]
    cases b with
    | error err =>
      have hr : recordsOf (Except.error err :: bs) = recordsOf bs := by simp [recordsOf]
      rw [hr] at h
      exact ih _ a h
    | ok r =>
      have hr : recordsOf (Except.ok r :: bs) = r :: recordsOf bs := by simp [recordsOf]
      rw [hr] at h
      rcases List.mem_cons.mp h with rfl | h
      · exact ⟨(load_keys_mono bs _ _).1 (by simp [loadBlob_ok, AList.mem_insert]),
          (load_keys_mono bs _ _).2 (by simp [loadBlob_ok, AList.mem_insert])⟩
      · exact ih _ a h

/-- Blobs that do not carry a key leave its entry as it was. -/
theorem load_lookup_of_later_distinct :
    ∀ (post : List blob) (st : loadState) (k : String),
      ((∀ b ∈ recordsOf post, b.SHA ≠ k) →
          (post.foldl loadBlob st).sha.lookup k = st.sha.lookup k) ∧
        ((∀ b ∈ recordsOf post, b.ID ≠ k) →
          (post.foldl loadBlob st).guid.lookup k = st.guid.lookup k) := by
  intro post
  induction post with
  | nil => intro st k; exact ⟨fun _ => rfl, fun _ => rfl⟩
  | cons b bs ih =>
    intro st k
    rw [foldl_loadBlob_cons]
    cases b with
    | error err =>
      have hr : recordsOf (Except.error err :: bs) = recordsOf bs := by simp [recordsOf]
      rw [hr]
      exact ih _ k
    | ok r =>
      have hr : recordsOf (Except.ok r :: bs) = r :: recordsOf bs := by simp [recordsOf]
      rw [hr]
      constructor
      · intro h
        rw [(ih _ k).1 (fun b hb => h b (List.mem_cons_of_mem _ hb)), loadBlob_ok]
        exact AList.lookup_insert_ne (Ne.symm (h r (List.mem_cons_self _ _)))
      · intro h
        rw [(ih _ k).2 (fun b hb => h b (List.mem_cons_of_mem _ hb)), loadBlob_ok]
        exact AList.lookup_insert_ne (Ne.symm (h r (List.mem_cons_self _ _)))

theorem foldl_loadBlob_append (st : loadState) (pre post : List blob) :
    (pre ++ post).foldl loadBlob st = post.foldl loadBlob (pre.foldl loadBlob st) :=
  List.foldl_append _ _ _ _

/-- C17 (amended): `init` builds the same indexes as for the sequence without its malformed
blobs; the fingerprint and the identity of every well-formed blob have an entry in their
index, and that entry is the record of the blob when no later well-formed blob carries the
same key; the reported count is the number of entries of the fingerprint index. -/
theorem init_skips_malformed (c : cache) (blobs : List blob) :
    (c.init blobs).cache = (c.init (wellFormed blobs)).cache ∧
      (∀ a ∈ recordsOf blobs,
        a.SHA ∈ (c.init blobs).cache.competitorsBySHA ∧
          a.ID ∈ (c.init blobs).cache.competitorsByGuid) ∧
      (∀ pre post a, blobs = pre ++ Except.ok a :: post →
        ((∀ b ∈ recordsOf post, b.ID ≠ a.ID) →
            (c.init blobs).cache.competitorsByGuid.lookup a.ID = some a) ∧
          ((∀ b ∈ recordsOf post, b.SHA ≠ a.SHA) →
            (c.init blobs).cache.competitorsBySHA.lookup a.SHA = some a)) ∧
      (c.init blobs).count = (c.init blobs).cache.competitorsBySHA.entries.length := by
  refine ⟨?_, ?_, ?_, rfl⟩
  · have h := load_maps_wellFormed blobs { sha := ∅, guid := ∅, errors := [] }
      { sha := ∅, guid := ∅, errors := [] } rfl rfl
    simp only [cache.init, h.1, h.2]
  · intro a ha
    exact load_keys_of_record blobs _ a ha
  · intro pre post a hb
    subst hb
    simp only [cache.init, foldl_loadBlob_append, foldl_loadBlob_cons]
    constructor
    · intro h
      rw [(load_lookup_of_later_distinct post _ a.ID).2 h, loadBlob_ok]
      exact AList.lookup_insert _
    · intro h
      rw [(load_lookup_of_later_distinct post _ a.SHA).1 h, loadBlob_ok]
      exact AList.lookup_insert _

theorem init_skips_malformed_witness :
    (∀ b ∈ recordsOf [Except.error "unexpected end of JSON input"], b.ID ≠ exampleAthlete.ID) ∧
      (emptyCache.init [Except.ok exampleAthlete,
          Except.error "unexpected end of JSON input"]).cache.competitorsByGuid.lookup
            exampleAthlete.ID = some exampleAthlete :=
  ⟨by simp [recordsOf],
    ((init_skips_malformed emptyCache
      [Except.ok exampleAthlete, Except.error "unexpected end of JSON input"]).2.2.1
      [] [Except.error "unexpected end of JSON input"] exampleAthlete rfl).1
      (by simp [recordsOf])⟩

/-- C17 (counterexample): after loading two well-formed blobs with the same identity, the
record of the first is not the one reachable under its identity in the identity index. -/
theorem init_same_identity_overwrites :
    exampleAthlete ∈ recordsOf [Except.ok exampleAthlete, Except.ok exampleSameID] ∧
      (emptyCache.init [Except.ok exampleAthlete,
          Except.ok exampleSameID]).cache.competitorsByGuid.lookup exampleAthlete.ID ≠
        some exampleAthlete := by
  refine ⟨by simp [recordsOf], ?_⟩
  have h : (emptyCache.init [Except.ok exampleAthlete,
      Except.ok exampleSameID]).cache.competitorsByGuid.lookup exampleAthlete.ID =
      some exampleSameID := by
    simp only [cache.init, List.foldl, loadBlob_ok]
    exact AList.lookup_insert _
  rw [h]
  intro heq
  have hn := congrArg athleteWithID.Name (Option.some.inj heq)
  simp [exampleSameID, exampleAthlete] at hn

end athletes

/-! ## The agreement of the two indexes of the athlete cache -/

namespace athletes

/-- Storing a record in both indexes keeps them in agreement when no stored record shares
exactly one of its two keys. -/
theorem consistent_insert (c : cache) (r : athleteWithID) (hc : c.consistent)
    (h1 : ∀ k a, c.competitorsBySHA.lookup k = some a → a.ID = r.ID → a.SHA = r.SHA)
    (h2 : ∀ k a, c.competitorsByGuid.lookup k = some a → a.SHA = r.SHA → a.ID = r.ID) :
    cache.consistent
      { competitorsBySHA := c.competitorsBySHA.insert r.SHA r
        competitorsByGuid := c.competitorsByGuid.insert r.ID r } := by
  constructor
  · intro k a hk
    by_cases hkr : k = r.SHA
    · subst hkr
      rw [AList.lookup_insert] at hk
      cases hk
      exact ⟨rfl, AList.lookup_insert _⟩
    · rw [AList.lookup_insert_ne hkr] at hk
      obtain ⟨hs, hg⟩ := hc.1 k a hk
      refine ⟨hs, ?_⟩
      have hne : a.ID ≠ r.ID := fun hid => hkr (hs ▸ h1 k a hk hid)
      show (c.competitorsByGuid.insert r.ID r).lookup a.ID = some a
      rw [AList.lookup_insert_ne hne]
      exact hg
  · intro k a hk
    by_cases hkr : k = r.ID
    · subst hkr
      rw [AList.lookup_insert] at hk
      cases hk
      exact ⟨rfl, AList.lookup_insert _⟩
    · rw [AList.lookup_insert_ne hkr] at hk
      obtain ⟨hi, hs⟩ := hc.2 k a hk
      refine ⟨hi, ?_⟩
      have hne : a.SHA ≠ r.SHA := fun hsha => hkr (hi ▸ h2 k a hk hsha)
      show (c.competitorsBySHA.insert r.SHA r).lookup a.SHA = some a
      rw [AList.lookup_insert_ne hne]
      exact hs

/-- The loop of `init` keeps the two maps in agreement when the records have paired keys. -/
theorem load_consistent (all : List athleteWithID) (hp : pairedKeys all) :
    ∀ (blobs : List blob) (st : loadState), (∀ a ∈ recordsOf blobs, a ∈ all) →
      cache.consistent { competitorsBySHA := st.sha, competitorsByGuid := st.guid } →
      (∀ k a, st.sha.lookup k = some a → a ∈ all) →
      (∀ k a, st.guid.lookup k = some a → a ∈ all) →
      cache.consistent
        { competitorsBySHA := (blobs.foldl loadBlob st).sha
          competitorsByGuid := (blobs.foldl loadBlob st).guid } := by
  intro blobs
  induction blobs with
  | nil => intro st _ hc _ _; exact hc
  | cons b bs ih =>
    intro st hsub hc hs hg
    rw [foldl_loadBlob_cons]
    cases b with
    | error err =>
      have hr : recordsOf (Except.error err :: bs) = recordsOf bs := by simp [recordsOf]
      rw [hr] at hsub
      exact ih (loadBlob st (Except.error err)) hsub hc hs hg
    | ok r =>
      have hr : recordsOf (Except.ok r :: bs) = r :: recordsOf bs := by simp [recordsOf]
      rw [hr] at hsub
      have hrall : r ∈ all := hsub r (List.mem_cons_self _ _)
      apply ih _ (fun a ha => hsub a (List.mem_cons_of_mem _ ha))
      · rw [loadBlob_ok]
        exact consistent_insert
          { competitorsBySHA := st.sha, competitorsByGuid := st.guid } r hc
          (fun k a hk hid => (hp a (hs k a hk) r hrall).mpr hid)
          (fun k a hk hsha => (hp a (hg k a hk) r hrall).mp hsha)
      · intro k a hk
        rw [loadBlob_ok] at hk
        by_cases hkr : k = r.SHA
        · subst hkr
          rw [show (AList.insert r.SHA r st.sha).lookup r.SHA = some r from
            AList.lookup_insert _] at hk
          cases hk
          exact hrall
        · rw [show (AList.insert r.SHA r st.sha).lookup k = st.sha.lookup k from
            AList.lookup_insert_ne hkr] at hk
          exact hs k a hk
      · intro k a hk
        rw [loadBlob_ok] at hk
        by_cases hkr : k = r.ID
        · subst hkr
          rw [show (AList.insert r.ID r st.guid).lookup r.ID = some r from
            AList.lookup_insert _] at hk
          cases hk
          exact hrall
        · rw [show (AList.insert r.ID r st.guid).lookup k = st.guid.lookup k from
            AList.lookup_insert_ne hkr] at hk
          exact hg k a hk

theorem consistent_empty :
    cache.consistent { competitorsBySHA := ∅, competitorsByGuid := ∅ } := by
  constructor <;> intro k a hk <;> simp [AList.lookup_empty] at hk

theorem init_consistent (c : cache) (blobs : List blob) (h : pairedKeys (recordsOf blobs)) :
    (c.init blobs).cache.consistent :=
  load_consistent (recordsOf blobs) h blobs { sha := ∅, guid := ∅, errors := [] }
    (fun _ ha => ha) consistent_empty
    (fun k a hk => by simp [AList.lookup_empty] at hk)
    (fun k a hk => by simp [AList.lookup_empty] at hk)

theorem competitor_consistent (c : cache) (name club : String) (rnd : Bytes16)
    (hc : c.consistent) (hfresh : guid rnd ∉ c.competitorsByGuid) :
    (c.competitor name club rnd).2.consistent := by
  cases hl : c.competitorsBySHA.lookup (sha name club) with
  | some a =>
    rw [competitor_of_lookup_some c name club rnd a hl]
    exact hc
  | none =>
    have hres : (c.competitor name club rnd).2 =
        { competitorsBySHA := c.competitorsBySHA.insert (sha name club)
            { ID := guid rnd, SHA := sha name club, Name := name, Club := club }
          competitorsByGuid := c.competitorsByGuid.insert (guid rnd)
            { ID := guid rnd, SHA := sha name club, Name := name, Club := club } } := by
      simp [cache.competitor, hl]
    rw [hres]
    apply consistent_insert c
      { ID := guid rnd, SHA := sha name club, Name := name, Club := club } hc
    · intro k a hk hid
      exfalso
      apply hfresh
      have hg := (hc.1 k a hk).2
      rw [show a.ID = guid rnd from hid] at hg
      exact AList.lookup_isSome.mp (by rw [hg]; rfl)
    · intro k a hk hsha
      exfalso
      have hs := (hc.2 k a hk).2
      rw [show a.SHA = sha name club from hsha, hl] at hs
      cases hs

/-- C16 (amended): in every cache state reached by `init` from blobs whose well-formed
records have the same fingerprint exactly when they have the same identity, followed by calls
of `competitor` with fresh generated identities, the two indexes hold exactly the same
records, each record is stored under its own fingerprint and under its own identity, and no
two records of the cache share a fingerprint. -/
theorem reachable_indexes_agree (c : cache) (h : reachable c) :
    (∀ a, (∃ k, c.competitorsBySHA.lookup k = some a) ↔
        (∃ k, c.competitorsByGuid.lookup k = some a)) ∧
      (∀ k a, c.competitorsBySHA.lookup k = some a →
        a.SHA = k ∧ c.competitorsByGuid.lookup a.ID = some a) ∧
      (∀ k a, c.competitorsByGuid.lookup k = some a →
        a.ID = k ∧ c.competitorsBySHA.lookup a.SHA = some a) ∧
      (∀ a b, (∃ k, c.competitorsBySHA.lookup k = some a) →
        (∃ k, c.competitorsBySHA.lookup k = some b) → a.SHA = b.SHA → a = b) := by
  have hc : c.consistent := by
    induction h with
    | init c0 blobs hp => exact init_consistent c0 blobs hp
    | competitor c0 name club rnd _ hfresh ih =>
      exact competitor_consistent c0 name club rnd ih hfresh
  refine ⟨?_, hc.1, hc.2, ?_⟩
  · intro a
    constructor
    · rintro ⟨k, hk⟩
      exact ⟨a.ID, (hc.1 k a hk).2⟩
    · rintro ⟨k, hk⟩
      exact ⟨a.SHA, (hc.2 k a hk).2⟩
  · rintro a b ⟨ka, hka⟩ ⟨kb, hkb⟩ hab
    have h1 := (hc.1 ka a hka).1
    have h2 := (hc.1 kb b hkb).1
    have hk : ka = kb := by rw [← h1, ← h2, hab]
    subst hk
    rw [hka] at hkb
    exact Option.some.inj hkb

theorem reachable_indexes_agree_witness :
    reachable ((emptyCache.init [Except.ok exampleAthlete]).cache.competitor "John Doe" "Club"
        (fun _ => 7)).2 ∧
      ∀ a, (∃ k, ((emptyCache.init [Except.ok exampleAthlete]).cache.competitor "John Doe" "Club"
            (fun _ => 7)).2.competitorsBySHA.lookup k = some a) ↔
        (∃ k, ((emptyCache.init [Except.ok exampleAthlete]).cache.competitor "John Doe" "Club"
            (fun _ => 7)).2.competitorsByGuid.lookup k = some a) := by
  have hr : reachable ((emptyCache.init [Except.ok exampleAthlete]).cache.competitor
      "John Doe" "Club" (fun _ => 7)).2 := by
    apply reachable.competitor
    · apply reachable.init
      intro a ha b hb
      simp only [recordsOf, List.filterMap_cons, List.filterMap_nil, List.mem_singleton] at ha hb
      subst ha
      subst hb
      exact ⟨fun _ => rfl, fun _ => rfl⟩
    · simp only [cache.init, List.foldl, loadBlob_ok, AList.mem_insert]
      rintro (h | h)
      · exact absurd h (by decide)
      · exact AList.not_mem_empty _ h
  exact ⟨hr, (reachable_indexes_agree _ hr).1⟩

/-- C16 (counterexample): loading two well-formed blobs with one fingerprint and two
identities leaves the first record in the identity index and not in the fingerprint index. -/
theorem init_same_fingerprint_disagrees :
    (emptyCache.init [Except.ok exampleAthlete,
        Except.ok exampleSameSHA]).cache.competitorsByGuid.lookup "1" = some exampleAthlete ∧
      ∀ k, (emptyCache.init [Except.ok exampleAthlete,
        Except.ok exampleSameSHA]).cache.competitorsBySHA.lookup k ≠ some exampleAthlete := by
  have hsha : exampleSameSHA.SHA = exampleAthlete.SHA := rfl
  constructor
  · simp only [cache.init, List.foldl, loadBlob_ok]
    rw [AList.lookup_insert_ne (by decide : ("1" : String) ≠ exampleSameSHA.ID)]
    exact AList.lookup_insert _
  · intro k hk
    simp only [cache.init, List.foldl, loadBlob_ok] at hk
    by_cases hkr : k = exampleAthlete.SHA
    · subst hkr
      rw [hsha, AList.lookup_insert] at hk
      have hid := congrArg athleteWithID.ID (Option.some.inj hk)
      exact absurd hid (by decide)
    · rw [hsha, AList.lookup_insert_ne hkr, AList.lookup_insert_ne hkr] at hk
      simp [AList.lookup_empty] at hk

end athletes
